import Mathlib

/-!
Verification development for the `code-loop` repository.

The repository orchestrates a multi-phase AI-assisted change-submission
pipeline.  Two artifacts carry the logic verified here:

* `opencode-loop.sh` — the Pipeline Driver (bash): retry-with-backoff
  around external commands, review/fix/commit/push/PR control flow,
  branch-name generation, and configuration loading.
* the Electron main-process script runner (TypeScript) — the Process
  Supervisor / Log Stream Parser / Run Registry: `handleLogEntry`,
  `updatePhaseStatus`, `markPhaseCompleted`, `finalizeBackgroundRun`,
  `loadPersistedRuns`, `stopRun`, and the PR Lifecycle Manager
  (`refreshRunPrStatus`, `maybeAutoMergeRun`).

Every definition below is a shallow embedding translated directly from the
source.  External effects (child processes, the filesystem, the renderer,
timers) are modelled as explicit oracle parameters; strings and numbers are
Lean `String`/`Nat`/`Int`.
-/

/-! ## String utilities

Byte-level bash/JS string operations used by both artifacts, modelled over
`List Char`. -/

/-- POSIX `[[:space:]]` character class (space, tab, newline, vertical tab,
form feed, carriage return). -/
def isPosixSpace (c : Char) : Bool :=
  c = ' ' || c = '\t' || c = '\n' || c = '\x0b' || c = '\x0c' || c = '\r'

/-- POSIX `[[:space:]]` restricted to a single line, as seen by `grep`
matching inside one line (a line never contains a newline). -/
def isPosixSpaceInLine (c : Char) : Bool :=
  c = ' ' || c = '\t' || c = '\x0b' || c = '\x0c' || c = '\r'

/-- Substring test on character lists: does `pat` occur contiguously in `l`? -/
def listHas (pat : List Char) : List Char → Bool
  | [] => pat.isEmpty
  | c :: rest => pat.isPrefixOf (c :: rest) || listHas pat rest

/-- Substring test on strings (used for JS `String.prototype.includes` and
for `grep` fixed-substring alternatives, which never contain a newline). -/
def strHas (s pat : String) : Bool :=
  listHas pat.toList s.toList

/-- ASCII lowercasing (models `tr '[:upper:]' '[:lower:]'` and the ASCII
part of `grep -i` case folding), done characterwise so that terms reduce
definitionally. -/
def strToLower (s : String) : String :=
  String.mk (s.toList.map Char.toLower)

/-- ASCII uppercasing (models JS `toUpperCase` on the ASCII phase tags). -/
def strToUpper (s : String) : String :=
  String.mk (s.toList.map Char.toUpper)

/-- Prefix test on strings (models `grep -v '^>'` line filtering and JS
`startsWith`). -/
def strStarts (s pat : String) : Bool :=
  pat.toList.isPrefixOf s.toList

/-- Split a character list on a separator character; the result always has
one more part than there are separators. -/
def splitListOn (sep : Char) : List Char → List (List Char)
  | [] => [[]]
  | c :: rest =>
    match splitListOn sep rest with
    | [] => [[]]
    | h :: t => if c = sep then [] :: h :: t else (c :: h) :: t

/-- Split a string on a single-character separator (the only separators
used by the modelled code are `\n` and `-`). -/
def splitOnChar (sep : Char) (s : String) : List String :=
  (splitListOn sep s.toList).map String.mk

/-- Join strings with a single-character separator. -/
def joinWithChar (sep : Char) (ls : List String) : String :=
  String.mk (List.intercalate [sep] (ls.map String.toList))

/-- Join lines with `\n` (inverse of `splitOnChar`, models the byte stream
a line-based pipeline emits). -/
def joinLines (ls : List String) : String :=
  joinWithChar '\n' ls

/-- Model of the `trim` shell helper, which runs
`sed 's/^[[:space:]]*//' ; sed 's/[[:space:]]*$//'` on each line: strip
leading and trailing POSIX whitespace from one line. -/
def trimLine (s : String) : String :=
  let l := s.toList.dropWhile isPosixSpace
  String.mk ((l.reverse.dropWhile isPosixSpace).reverse)

/-- Helper for `stripAnsi`: the state while scanning a potential
`ESC [ [0-9;]* m` escape sequence.  The buffer holds the characters of the
candidate sequence consumed so far, in order. -/
def ansiEsc : Char := Char.ofNat 27

/-- One step of the ANSI-stripping scan: `none` state means we are outside
any candidate escape sequence. -/
def stripAnsiAux : List Char → List Char → List Char
  | buf, [] => buf.reverse
  | [], c :: rest =>
      if c = ansiEsc then stripAnsiAux [c] rest
      else c :: stripAnsiAux [] rest
  | [e], c :: rest =>
      if c = '[' then stripAnsiAux [c, e] rest
      else if c = ansiEsc then e :: stripAnsiAux [c] rest
      else e :: c :: stripAnsiAux [] rest
  | buf, c :: rest =>
      if c.isDigit || c = ';' then stripAnsiAux (c :: buf) rest
      else if c = 'm' then stripAnsiAux [] rest
      else if c = ansiEsc then buf.reverse ++ stripAnsiAux [c] rest
      else buf.reverse ++ (c :: stripAnsiAux [] rest)

/-- Model of the `strip_ansi` shell helper
(`sed 's/\x1b\[[0-9;]*m//g'`): delete every `ESC [ [0-9;]* m` sequence. -/
def stripAnsi (s : String) : String :=
  String.mk (stripAnsiAux [] s.toList)

/-- Drop trailing empty lines, modelling command substitution `$(...)`
removing all trailing newlines from a pipeline's output. -/
def dropTrailingEmpties (ls : List String) : List String :=
  (ls.reverse.dropWhile (· = "")).reverse

/-- Model of `cleanup_text_output` from `opencode-loop.sh`:
`echo "$1" | strip_ansi | grep -v '^>' | sed '/^$/d' | trim`.
The text is split into lines; ANSI sequences are stripped; lines starting
with `>` are removed; empty lines are removed; each remaining line is
trimmed (which can re-introduce empty lines from whitespace-only lines);
command substitution at the call sites drops trailing newlines. -/
def cleanup_text_output (s : String) : String :=
  let ls := splitOnChar '\n' (stripAnsi s)
  let ls := ls.filter (fun l => !strStarts l ">")
  let ls := ls.filter (fun l => l ≠ "")
  let ls := ls.map trimLine
  joinLines (dropTrailingEmpties ls)

/-- Nonempty all-digit test, modelling the bash regex `^[0-9]+$`. -/
def isDigits (s : String) : Bool :=
  s ≠ "" && s.toList.all Char.isDigit

/-- Numeric value of a decimal digit string (only applied to strings that
passed `isDigits`, matching bash arithmetic comparison on them). -/
def digitsToNat (s : String) : Nat :=
  s.toList.foldl (fun acc c => acc * 10 + (c.toNat - '0'.toNat)) 0

/-! ## Retry-with-backoff policy (`opencode-loop.sh` lines 378-438) -/

/-- Literal (case-insensitive) alternatives of the `is_network_error`
pattern set, lowercased.  The two `http[[:space:]]*...` alternatives are
handled separately by `hasHttpCode`. -/
def networkErrorLiterals : List String :=
  ["network", "timeout", "timed out", "connection", "connect:",
   "etimedout", "econnreset", "econnrefused", "enotfound", "ehostunreach",
   "temporary failure", "name resolution", "could not resolve host",
   "no route to host", "tls", "ssl", "x509", "handshake", "dial tcp",
   "i/o timeout", "unexpected eof", "service unavailable", "bad gateway",
   "gateway timeout", "rate limit", "secondary rate limit"]

/-- After a literal `http`, skip in-line whitespace and accept `429` or a
`5xx` code, modelling `http[[:space:]]*5[0-9][0-9]|http[[:space:]]*429`. -/
def httpCodeAfter (l : List Char) : Bool :=
  match l.dropWhile isPosixSpaceInLine with
  | '4' :: '2' :: '9' :: _ => true
  | '5' :: a :: b :: _ => a.isDigit && b.isDigit
  | _ => false

/-- Scan for an occurrence of `http` followed by whitespace and a 429/5xx
code anywhere in the (lowercased) text. -/
def hasHttpCode : List Char → Bool
  | [] => false
  | c :: rest =>
      (['h', 't', 't', 'p'].isPrefixOf (c :: rest) && httpCodeAfter ((c :: rest).drop 4))
      || hasHttpCode rest

/-- Model of `is_network_error`: `grep -Eiq` of the fixed alternation over
the combined output.  None of the alternatives can span a line break, so
matching any line is equivalent to a substring match on the whole text. -/
def is_network_error (output : String) : Bool :=
  let low := strToLower output
  networkErrorLiterals.any (fun p => listHas p.toList low.toList) || hasHttpCode low.toList

/-- Observable outcome of one `retry_with_backoff` invocation:
how many times the wrapped command was executed, the sleeps performed (in
order), and the final result (`ok` captured output, or `error` exit
status). -/
structure RetryResult where
  execs : Nat
  sleeps : List Nat
  outcome : Except Nat String
deriving Repr

/-- Delay before the next attempt: `RETRY_DELAYS[idx]` with the bash
fallback `:-RETRY_DELAYS[-1]` — the `idx`-th entry, or the last entry once
`idx` is past the end. -/
def delayFor (delays : List Nat) (idx : Nat) : Nat :=
  match delays.get? idx with
  | some d => d
  | none => delays.getD (delays.length - 1) 0

/-- Loop body of `retry_with_backoff`.  `results i` is the (combined
output, exit status) the wrapped command would produce on its `i`-th
execution (1-indexed); `attempt` is the loop counter; the fuel is an upper
bound on remaining iterations (the bash `while` can only iterate while
`attempt ≤ mx`). -/
def retryAux (mx : Nat) (delays : List Nat) (results : Nat → String × Nat) :
    Nat → Nat → RetryResult
  | 0, _ => ⟨0, [], Except.error 1⟩
  | fuel + 1, attempt =>
    if attempt ≤ mx then
      if (results attempt).2 = 0 then ⟨1, [], Except.ok (results attempt).1⟩
      else if !is_network_error (results attempt).1 then
        ⟨1, [], Except.error (results attempt).2⟩
      else if mx ≤ attempt then ⟨1, [], Except.error (results attempt).2⟩
      else
        let tailRes := retryAux mx delays results fuel (attempt + 1)
        ⟨tailRes.execs + 1, delayFor delays (attempt - 1) :: tailRes.sleeps,
         tailRes.outcome⟩
    else ⟨0, [], Except.error 1⟩

/-- Model of `retry_with_backoff` with `MAX_RETRIES = mx` and
`RETRY_DELAYS = delays`: starts at attempt 1; `mx` units of fuel always
suffice because the loop returns no later than `attempt = mx`. -/
def retry_with_backoff (mx : Nat) (delays : List Nat) (results : Nat → String × Nat) :
    RetryResult :=
  retryAux mx delays results mx 1

/-! ## MAX_RETRIES configuration (`opencode-loop.sh` lines 204-238) -/

/-- Model of the `MAX_RETRIES` computation in `load_config`:
default `3` when unset/empty, replaced by `3` when not matching
`^[0-9]+$`, clamped to at most 3 and at least 1 — and only afterwards the
`OPENCODE_LOOP_MAX_RETRIES` environment override is applied verbatim
(when set and nonempty), without any re-validation. -/
def load_config_max_retries (configValue : Option String) (envValue : Option String) :
    String :=
  let v0 : String := match configValue with
    | none => "3"
    | some s => if s = "" then "3" else s
  let v1 := if isDigits v0 then v0 else "3"
  let v2 := if digitsToNat v1 > 3 then "3" else v1
  let v3 := if digitsToNat v2 < 1 then "1" else v2
  match envValue with
  | none => v3
  | some e => if e = "" then v3 else e

/-! ## Branch-name generation (`opencode-loop.sh` lines 597-635) -/

/-- Stop words filtered out of the branch slug. -/
def branchStopWords : List String :=
  ["the", "a", "an", "and", "or", "for", "from", "with", "that", "this",
   "into", "after", "before", "when", "while", "opencode", "detailed",
   "output", "run"]

/-- Collapse runs of `-` into a single `-` (the third sed stage of the
slug sanitation).  The flag
records whether the previously emitted character was a dash. -/
def collapseDashesAux : Bool → List Char → List Char
  | _, [] => []
  | prevDash, c :: rest =>
    if c = '-' then
      if prevDash then collapseDashesAux true rest
      else '-' :: collapseDashesAux true rest
    else c :: collapseDashesAux false rest

/-- Model of the per-line slug sanitation pipeline of
`generate_branch_name`: lowercase via `tr`, then four sed stages that map
every character outside lowercase ASCII letters, digits and dash to a
dash, collapse dash runs, and strip leading and trailing dashes. -/
def sanitizeSlugLine (s : String) : String :=
  let lower := strToLower s
  let mapped := lower.toList.map (fun c =>
    if ('a' ≤ c && c ≤ 'z') || ('0' ≤ c && c ≤ '9') || c = '-' then c else '-')
  let collapsed := collapseDashesAux false mapped
  let noLead := collapsed.dropWhile (· = '-')
  String.mk ((noLead.reverse.dropWhile (· = '-')).reverse)

/-- The token-selection loop of `generate_branch_name`: skip empty,
purely numeric and stop-word tokens; truncate each kept token to 10
characters; stop after 3 kept tokens. -/
def pickBranchTokens : List String → Nat → List String
  | [], _ => []
  | t :: rest, count =>
    if t = "" then pickBranchTokens rest count
    else if isDigits t then pickBranchTokens rest count
    else if branchStopWords.contains t then pickBranchTokens rest count
    else
      let t10 := String.mk (t.toList.take 10)
      if count + 1 ≥ 3 then [t10]
      else t10 :: pickBranchTokens rest (count + 1)

/-- Model of `generate_branch_name`.  `rawSlug` is the raw agent output,
`rand` models `$RANDOM` for the fallback.  `branchPrefixEnv` models the
`OPENCODE_LOOP_BRANCH_PREFIX` environment variable exported by the
Electron app for this purpose; the script never reads it — the final
branch name hard-codes the `opencode/` prefix. -/
def generate_branch_name (branchPrefixEnv : String) (rawSlug : String) (rand : Nat) :
    String :=
  let cleaned := cleanup_text_output rawSlug
  let firstLine := (splitOnChar '\n' cleaned).headD ""
  let slug := sanitizeSlugLine firstLine
  let tokens := splitOnChar '-' slug
  let compact := joinWithChar '-' (pickBranchTokens tokens 0)
  let cut := String.mk (compact.toList.take 28)
  let stripped := String.mk ((cut.toList.reverse.dropWhile (· = '-')).reverse)
  let slugFinal := if stripped = "" then "task-" ++ toString rand else stripped
  "opencode/" ++ slugFinal

/-! ## Run registry data model (shared/types.ts, script-runner) -/

/-- TS `PhaseStatus`. -/
inductive PhaseStatus where
  | pending | active | completed | skipped | failed
deriving DecidableEq, Repr

/-- TS `RunStatus`. -/
inductive RunStatus where
  | running | completed | failed | stopped
deriving DecidableEq, Repr

/-- TS `PrMergeStatus` (`auto-merging` spelled `autoMerging`). -/
inductive PrMergeStatus where
  | none | checking | ready | conflict | autoMerging | merged | failed
deriving DecidableEq, Repr

/-- TS run mode (`'foreground' | 'background'`). -/
inductive RunMode where
  | foreground | background
deriving DecidableEq, Repr

/-- TS `PIPELINE_PHASES` — the 9 fixed stages, in order. -/
def PIPELINE_PHASES : List String :=
  ["CLONE", "SETUP", "PLAN", "IMPLEMENT", "REVIEW", "FIX", "COMMIT", "PUSH", "PR"]

/-- TS `LogEntry`. -/
structure LogEntry where
  timestamp : String
  phase : String
  message : String
  raw : String
deriving DecidableEq, Repr

/-- TS `Record<string, PhaseStatus>`: a partial map from phase keys to
statuses (`none` models an absent key). -/
abbrev PhaseMap : Type := String → Option PhaseStatus

/-- TS `RunState` (fields touched by the modelled operations;
`modelOverrides`/`planText` are carried by the app but never affect the
modelled control flow and are omitted). -/
structure RunState where
  id : String
  status : RunStatus
  currentPhase : String
  phases : PhaseMap
  logs : List LogEntry
  branchName : String
  prUrl : Option String
  prTitle : Option String
  prNumber : Option Int
  prHeadRef : Option String
  prBaseRef : Option String
  prMergeStatus : PrMergeStatus
  prMergeMessage : Option String
  startedAt : Nat
  finishedAt : Option Nat
  pid : Option Int
  runMode : RunMode
  logFilePath : Option String
  autoMerge : Bool
  skipPr : Bool
  skipPlan : Bool

/-- `MAX_LOGS_PER_RUN` from the script runner. -/
def MAX_LOGS_PER_RUN : Nat := 10000

/-- TS `createInitialPhases`: every phase of the fixed set is assigned;
PLAN is pre-skipped by `skipPlan`, PUSH and PR by `skipPr`. -/
def createInitialPhases (skipPlan skipPr : Bool) : PhaseMap :=
  fun p =>
    if PIPELINE_PHASES.contains p then
      some (if p = "PLAN" && skipPlan then PhaseStatus.skipped
            else if (p = "PR" || p = "PUSH") && skipPr then PhaseStatus.skipped
            else PhaseStatus.pending)
    else none

/-- Record-key assignment `state.phases[k] = v`. -/
def setPhase (m : PhaseMap) (k : String) (v : PhaseStatus) : PhaseMap :=
  fun x => if x = k then some v else m x

/-- The demotion loop of `updatePhaseStatus`: every phase of the fixed set
other than `pu` that is currently `active` becomes `completed`. -/
def demoteOtherActives (m : PhaseMap) (pu : String) : PhaseMap :=
  fun x =>
    if PIPELINE_PHASES.contains x && (m x == some PhaseStatus.active) && x ≠ pu then
      some PhaseStatus.completed
    else m x

/-- The loops in the `DONE` branch of `handleLogEntry`, in
`finalizeBackgroundRun` and in the foreground close handler: every
currently `active` phase of the fixed set becomes `st`. -/
def completeActivePhases (m : PhaseMap) (st : PhaseStatus) : PhaseMap :=
  fun x =>
    if PIPELINE_PHASES.contains x && (m x == some PhaseStatus.active) then some st
    else m x

/-- TS `updatePhaseStatus`: ignore unknown phases; demote the previously
active phase to completed; mark the (non-skipped) target phase active and
record it as the current phase. -/
def updatePhaseStatus (s : RunState) (phase : String) : RunState :=
  let pu := strToUpper phase
  if PIPELINE_PHASES.contains pu then
    let m1 := demoteOtherActives s.phases pu
    let m2 := if m1 pu ≠ some PhaseStatus.skipped then setPhase m1 pu PhaseStatus.active else m1
    { s with phases := m2, currentPhase := pu }
  else s

/-- TS `markPhaseCompleted`: an `active` known phase becomes `completed`. -/
def markPhaseCompleted (s : RunState) (phase : String) : RunState :=
  let pu := strToUpper phase
  if PIPELINE_PHASES.contains pu && (s.phases pu == some PhaseStatus.active) then
    { s with phases := setPhase s.phases pu PhaseStatus.completed }
  else s

/-- JS regex test `message.match(/^Completed in \d+s/)`: the message
starts with `Completed in `, one or more digits, then `s`. -/
def completedInMatch (msg : String) : Bool :=
  let l := msg.toList
  let pre := "Completed in ".toList
  if pre.isPrefixOf l then
    let rest := l.drop pre.length
    let ds := rest.takeWhile Char.isDigit
    let rest2 := rest.drop ds.length
    ds ≠ [] && (match rest2 with | 's' :: _ => true | _ => false)
  else false

/-- JS `\s` whitespace for the PR-URL regex. -/
def jsWs (c : Char) : Bool :=
  c = ' ' || c = '\t' || c = '\n' || c = '\r' || c = '\x0b' || c = '\x0c'

/-- Candidate URL right after one occurrence of `PR created:`: skip
whitespace, take the maximal non-whitespace run, and require it to extend
the literal `https://` by at least one character. -/
def prUrlCandidate (l : List Char) : Option String :=
  let rest := l.dropWhile jsWs
  let tok := rest.takeWhile (fun c => !jsWs c)
  if "https://".toList.isPrefixOf tok && "https://".length < tok.length then
    some (String.mk tok)
  else none

/-- Model of the JS regex search `PR created:\s*(https:...non-space+)`
over the message: at each occurrence of `PR created:`, try to read the
URL; keep scanning on failure. -/
def extractPrUrl : List Char → Option String
  | [] => none
  | c :: rest =>
    if "PR created:".toList.isPrefixOf (c :: rest) then
      match prUrlCandidate ((c :: rest).drop "PR created:".length) with
      | some u => some u
      | Option.none => extractPrUrl rest
    else extractPrUrl rest

/-- Append a log entry under the `MAX_LOGS_PER_RUN` retention bound
(oldest entries spliced away first). -/
def pushLogBounded (logs : List LogEntry) (e : LogEntry) : List LogEntry :=
  let l2 := logs ++ [e]
  if l2.length > MAX_LOGS_PER_RUN then l2.drop (l2.length - MAX_LOGS_PER_RUN) else l2

/-- TS `handleLogEntry` (state part).  The PLAN branch that loads plan
text from a file only sets `planText` (not modelled); renderer broadcasts
and persistence scheduling have no effect on `RunState`. -/
def handleLogEntry (s : RunState) (entry : LogEntry) : RunState :=
  let s1 := { s with logs := pushLogBounded s.logs entry }
  let phase := strToUpper entry.phase
  if phase = "DONE" then
    let s2 := { s1 with phases := completeActivePhases s1.phases PhaseStatus.completed }
    match extractPrUrl entry.message.toList with
    | some url =>
        { s2 with prUrl := some url,
                  prMergeStatus := PrMergeStatus.checking,
                  prMergeMessage := some "Pull request created. Checking merge status..." }
    | Option.none => s2
  else if phase = "FIX" then
    if strHas entry.message "Skipped" then
      { s1 with phases := setPhase s1.phases "FIX" PhaseStatus.skipped }
    else updatePhaseStatus s1 phase
  else if phase = "PLAN" && strHas entry.message "Skipped" then
    { s1 with phases := setPhase s1.phases "PLAN" PhaseStatus.skipped }
  else if PIPELINE_PHASES.contains phase then
    if completedInMatch entry.message then markPhaseCompleted s1 phase
    else updatePhaseStatus s1 phase
  else s1

/-- TS `inferCompletedFromLogs`: some retained entry has phase `DONE`
(case-insensitively) and a message containing `Total duration:`. -/
def inferCompletedFromLogs (s : RunState) : Bool :=
  s.logs.any (fun e => strToUpper e.phase = "DONE" && strHas e.message "Total duration:")

/-- TS `finalizeBackgroundRun` (state part): a no-op unless still
`running`; otherwise stamp `finishedAt` and either complete or fail the
run and every still-active phase, depending on `inferCompletedFromLogs`.
The broadcasts, persistence and the conditional `maybeAutoMergeRun`
trigger that follow are external effects. -/
def finalizeBackgroundRun (now : Nat) (s : RunState) : RunState :=
  if s.status ≠ RunStatus.running then s
  else
    let s1 := { s with finishedAt := some now }
    if inferCompletedFromLogs s1 then
      { s1 with status := RunStatus.completed,
                phases := completeActivePhases s1.phases PhaseStatus.completed }
    else
      { s1 with status := RunStatus.failed,
                phases := completeActivePhases s1.phases PhaseStatus.failed }

/-- The `RunState` literal built by TS `startRun` before spawning the
child (phases from `createInitialPhases`, status `running`, current phase
`INIT`, empty log). -/
def startRunInitialState (id : String) (skipPlan skipPr background autoMerge : Bool)
    (startedAt : Nat) : RunState :=
  { id := id
    status := RunStatus.running
    currentPhase := "INIT"
    phases := createInitialPhases skipPlan skipPr
    logs := []
    branchName := ""
    prUrl := none
    prTitle := none
    prNumber := none
    prHeadRef := none
    prBaseRef := none
    prMergeStatus := PrMergeStatus.none
    prMergeMessage := none
    startedAt := startedAt
    finishedAt := none
    pid := none
    runMode := if background then RunMode.background else RunMode.foreground
    logFilePath := none
    autoMerge := autoMerge
    skipPr := skipPr
    skipPlan := skipPlan }

/-! ## Startup orphan adoption (`loadPersistedRuns`, script runner) -/

/-- TS `isProcessAlive`: false for a missing or non-positive pid,
otherwise the `process.kill(pid, 0)` probe, modelled by the oracle
`alive`. -/
def isProcessAlive (alive : Int → Bool) : Option Int → Bool
  | Option.none => false
  | some p => if p ≤ 0 then false else alive p

/-- The synthetic entry appended when a persisted `running` run is forced
to `stopped` at startup (`ts` models the formatted current time). -/
def syntheticStopEntry (ts : String) : LogEntry :=
  { timestamp := ts
    phase := "INIT"
    message := "Run marked as stopped after app restart"
    raw := "[INIT] Run marked as stopped after app restart" }

/-- Result of reconciling one persisted run at startup: the (possibly
rewritten) state, whether the run was re-adopted into the active set, and
whether background log polling was started for it. -/
structure ReconcileResult where
  state : RunState
  adopted : Bool
  pollingStarted : Bool

/-- The per-run `status === 'running'` branch of TS `loadPersistedRuns`:
an alive background run is re-adopted (polling starts only when a log
file path was persisted, both by the `if (loadedRun.logFilePath)` guard
and by the same guard inside `startBackgroundLogPolling`); any other
still-`running` run is marked `stopped`, gets `finishedAt` backfilled and
the synthetic log entry appended. -/
def loadPersistedRunStep (alive : Int → Bool) (now : Nat) (ts : String)
    (run : RunState) : ReconcileResult :=
  if run.status = RunStatus.running then
    if run.runMode = RunMode.background && isProcessAlive alive run.pid then
      { state := run, adopted := true, pollingStarted := run.logFilePath.isSome }
    else
      { state :=
          { run with
            status := RunStatus.stopped
            finishedAt := some (run.finishedAt.getD now)
            logs := run.logs ++ [syntheticStopEntry ts] }
        adopted := false
        pollingStarted := false }
  else { state := run, adopted := false, pollingStarted := false }

/-! ## Stop requests (TS `stopRun`) -/

/-- Externally observable side effects of one `stopRun` call delivered
synchronously (the 3-second SIGKILL escalation runs later, from a timer):
renderer broadcasts, whether the registry write was scheduled, SIGTERM
and SIGKILL targets (a negative target is a process group), and whether
log polling was stopped. -/
structure StopEffects where
  broadcasts : Nat
  persisted : Bool
  termSignals : List Int
  killSignals : List Int
  pollingStopped : Bool
deriving DecidableEq, Repr

/-- No side effects at all. -/
def noStopEffects : StopEffects :=
  { broadcasts := 0, persisted := false, termSignals := [], killSignals := [],
    pollingStopped := false }

/-- The body of TS `stopRun` once both guards have passed: flip to
`stopped`, stamp `finishedAt`, broadcast RUN_STATUS and RUN_DONE, persist,
stop polling, then signal the process group and the child/pid
(`hasChildHandle` tells whether an in-process `ChildProcess` handle
exists; `killFails` makes the try-block throw, taking the catch path). -/
def stopRunBody (target : RunState) (hasChildHandle killFails : Bool) (now : Nat) :
    Bool × Option RunState × StopEffects :=
  let t2 := { target with status := RunStatus.stopped, finishedAt := some now }
  let signals : List Int × List Int :=
    match target.pid with
    | some p =>
        if p = 0 then ([], [])
        else if killFails then ([], if hasChildHandle then [p] else [p])
        else ([-p, p], [])
    | Option.none => ([], [])
  (true, some t2,
    { broadcasts := 2, persisted := true, termSignals := signals.1,
      killSignals := signals.2, pollingStopped := true })

/-- TS `stopRun` (state part).  `active` is `activeRuns.get(runId)?.state`,
`persisted` is `persistedRuns.get(runId)`.  Returns the boolean result,
the rewritten target state (`none` when nothing was mutated), and the
side effects performed. -/
def stopRun (active persisted : Option RunState) (hasChildHandle killFails : Bool)
    (now : Nat) : Bool × Option RunState × StopEffects :=
  match active, persisted with
  | Option.none, Option.none => (false, none, noStopEffects)
  | Option.none, some p =>
      if p.status ≠ RunStatus.running then (false, none, noStopEffects)
      else stopRunBody p hasChildHandle killFails now
  | some a, _ =>
      if a.status ≠ RunStatus.running then (false, none, noStopEffects)
      else stopRunBody a hasChildHandle killFails now

/-! ## Pipeline tail: review → fix → commit → push → PR
(`run_pipeline`, `opencode-loop.sh` lines 993-1132) -/

/-- Oracle results of the external commands executed by the pipeline tail
(`Ok` flags are exit-status-zero of the corresponding command; `Raw`
strings are captured outputs).  `porcelain` is the command-substituted
output of `git status --porcelain` after `git add -A`. -/
structure PipelineEnv where
  modelReview : String
  modelFix : String
  modelPr : String
  branchName : String
  reviewOk : Bool
  reviewRaw : String
  fixOk : Bool
  gitAddOk : Bool
  porcelain : String
  gitDiffStagedOk : Bool
  commitMsgOk : Bool
  commitMsgRaw : String
  gitCommitOk : Bool
  repoDetected : Bool
  pushTarget : String
  pushOk : Bool
  remoteBranchVisible : Bool
  fetchOk : Bool
  aheadCount : Nat
  prDiffOk : Bool
  prGenOk : Bool
  prGenRaw : String
  prCreateOk : Bool
  prUrlOut : String
  dur : Nat

/-- Observable outcome of the pipeline tail: whether it returned success,
the log lines emitted (phase tag, message), whether the Fix agent was
invoked, and whether the `git push` / `gh pr create` commands ran. -/
structure PipelineOutcome where
  ok : Bool
  logs : List (String × String)
  fixRan : Bool
  pushCmdRan : Bool
  prCreateRan : Bool
deriving Repr

/-- The `grep -Eiq` gate deciding the Fix phase: some line of the cleaned
review response equals `LGTM` case-insensitively. -/
def reviewIsLgtm (reviewClean : String) : Bool :=
  (splitOnChar '\n' reviewClean).any (fun l => strToUpper l = "LGTM")

/-- The push/PR tail of `run_pipeline` (from `log "PUSH" "Pushing branch"`
to the terminal `DONE` lines).  `logsAcc` is the log prefix already
emitted and `fixRan` whether the Fix agent was invoked earlier. -/
def pipelineFromPush (env : PipelineEnv) (logsAcc : List (String × String))
    (fixRan : Bool) : PipelineOutcome :=
  let logs5 := logsAcc ++ [("PUSH", "Pushing branch " ++ env.branchName)]
  if !env.repoDetected then
    { ok := false
      logs := logs5 ++ [("PUSH", "Error: Could not detect target GitHub repository for PR creation.")]
      fixRan := fixRan, pushCmdRan := false, prCreateRan := false }
  else
    let logs6 := logs5 ++ [("PUSH", "Using push target " ++ env.pushTarget ++ " and PR repo")]
    if !env.pushOk then
      { ok := false, logs := logs6, fixRan := fixRan, pushCmdRan := true, prCreateRan := false }
    else if env.pushTarget = "origin" && !env.remoteBranchVisible then
      { ok := false
        logs := logs6 ++ [("PUSH", "Error: Branch was pushed but is not visible on origin.")]
        fixRan := fixRan, pushCmdRan := true, prCreateRan := false }
    else if env.pushTarget = "origin" && !env.fetchOk then
      { ok := false, logs := logs6, fixRan := fixRan, pushCmdRan := true, prCreateRan := false }
    else if env.aheadCount = 0 then
      { ok := false
        logs := logs6 ++ [("PR", "Error: No commits ahead of base.")]
        fixRan := fixRan, pushCmdRan := true, prCreateRan := false }
    else
      let logs7 := logs6 ++ [("PR", "Generating PR title and body with model " ++ env.modelPr)]
      if !env.prDiffOk then
        { ok := false, logs := logs7, fixRan := fixRan, pushCmdRan := true, prCreateRan := false }
      else if !env.prGenOk then
        { ok := false, logs := logs7, fixRan := fixRan, pushCmdRan := true, prCreateRan := false }
      else if !env.prCreateOk then
        { ok := false, logs := logs7, fixRan := fixRan, pushCmdRan := true, prCreateRan := true }
      else
        { ok := true
          logs := logs7 ++
            [("PR", "Completed in " ++ toString env.dur ++ "s"),
             ("DONE", "PR created: " ++ env.prUrlOut),
             ("DONE", "Total duration: " ++ toString env.dur ++ "s")]
          fixRan := fixRan, pushCmdRan := true, prCreateRan := true }

/-- The commit segment of `run_pipeline` (from `log "COMMIT" "Preparing
commit"` through `git commit`), continuing into `pipelineFromPush`. -/
def pipelineFromCommit (env : PipelineEnv) (logsAcc : List (String × String))
    (fixRan : Bool) : PipelineOutcome :=
  let logs3 := logsAcc ++ [("COMMIT", "Preparing commit")]
  if !env.gitAddOk then
    { ok := false, logs := logs3, fixRan := fixRan, pushCmdRan := false, prCreateRan := false }
  else if env.porcelain = "" then
    { ok := false
      logs := logs3 ++ [("COMMIT", "No changes after implementation/review. Nothing to commit.")]
      fixRan := fixRan, pushCmdRan := false, prCreateRan := false }
  else if !env.gitDiffStagedOk then
    { ok := false, logs := logs3, fixRan := fixRan, pushCmdRan := false, prCreateRan := false }
  else if !env.commitMsgOk then
    { ok := false, logs := logs3, fixRan := fixRan, pushCmdRan := false, prCreateRan := false }
  else
    let commitMsg0 := ((splitOnChar '\n' (cleanup_text_output env.commitMsgRaw)).headD "")
    let commitMsg := if commitMsg0 = "" then "chore: apply opencode loop changes" else commitMsg0
    let logs4 := logs3 ++ [("COMMIT", "Committing with message: " ++ commitMsg)]
    if !env.gitCommitOk then
      { ok := false, logs := logs4, fixRan := fixRan, pushCmdRan := false, prCreateRan := false }
    else pipelineFromPush env logs4 fixRan

/-- Straight-line translation of `run_pipeline` from the review phase to
the terminal `DONE` lines, segmented into `pipelineFromCommit` and
`pipelineFromPush` at the source's phase boundaries.  Filesystem writes of
intermediate files do not affect control flow and are dropped; every
`|| return 1` is an early return with `ok := false`.  `logs` accumulates
every `log` call of the region in order. -/
def run_pipeline_from_review (env : PipelineEnv) : PipelineOutcome :=
  let logs0 := [("REVIEW", "Starting review phase with model " ++ env.modelReview)]
  if !env.reviewOk then
    { ok := false, logs := logs0, fixRan := false, pushCmdRan := false, prCreateRan := false }
  else
    let reviewClean := cleanup_text_output env.reviewRaw
    let logs1 := logs0 ++ [("REVIEW", "Completed in " ++ toString env.dur ++ "s")]
    if !(reviewIsLgtm reviewClean) then
      let logs2 := logs1 ++ [("FIX", "Review found issues; running fix phase with model " ++ env.modelFix)]
      if !env.fixOk then
        { ok := false, logs := logs2, fixRan := true, pushCmdRan := false, prCreateRan := false }
      else
        pipelineFromCommit env (logs2 ++ [("FIX", "Completed in " ++ toString env.dur ++ "s")]) true
    else
      pipelineFromCommit env
        (logs1 ++ [("FIX", "Skipped fix phase because review response is LGTM")]) false

/-! ## PR Lifecycle Manager (script runner: `fetchPrView`, `applyPrView`,
`refreshRunPrStatus`, `executeMerge`, `maybeAutoMergeRun`) -/

/-- TS `GhPrView` — the JSON returned by `gh pr view`. -/
structure GhPrView where
  url : String
  title : String
  number : Int
  state : String
  mergeable : String
  headRefName : String
  baseRefName : String
deriving DecidableEq, Repr

/-- JS truthiness of `state.prUrl` (`null` and the empty string are
falsy). -/
def prUrlTruthy (s : RunState) : Bool :=
  match s.prUrl with
  | some u => u ≠ ""
  | Option.none => false

/-- TS `applyPrView`: map the `gh` state/mergeable flags onto the
`PrMergeStatus` enum with a human-readable message, falling back to the
previous field on a falsy value (the `number` of a parsed JSON response is
always finite, so `Number.isFinite(view.number)` is modelled true). -/
def applyPrView (s : RunState) (v : GhPrView) : RunState :=
  let mergeStatus :=
    if v.state = "MERGED" then PrMergeStatus.merged
    else if v.mergeable = "CONFLICTING" then PrMergeStatus.conflict
    else if v.mergeable = "MERGEABLE" then PrMergeStatus.ready
    else PrMergeStatus.checking
  let mergeMessage :=
    if v.state = "MERGED" then "Pull request has been merged."
    else if v.mergeable = "CONFLICTING" then "Pull request has merge conflicts."
    else if v.mergeable = "MERGEABLE" then "Pull request is mergeable."
    else "Mergeability is still being calculated by GitHub."
  { s with
    prUrl := if v.url ≠ "" then some v.url else s.prUrl
    prTitle := if v.title ≠ "" then some v.title else s.prTitle
    prNumber := some v.number
    prHeadRef := if v.headRefName ≠ "" then some v.headRefName else s.prHeadRef
    prBaseRef := if v.baseRefName ≠ "" then some v.baseRefName else s.prBaseRef
    prMergeStatus := mergeStatus
    prMergeMessage := some mergeMessage }

/-- TS `refreshRunPrStatus` (state part): no-op failure without a PR URL;
otherwise mark `checking`, then apply the fetched view (the oracle `view`
models `fetchPrView`: `ok` a parsed response, `error` a thrown message)
or record the failure. -/
def refreshRunPrStatus (view : Except String GhPrView) (s : RunState) :
    Bool × RunState :=
  if !prUrlTruthy s then (false, s)
  else
    let s1 := { s with
      prMergeStatus := PrMergeStatus.checking
      prMergeMessage := some "Checking pull request status..." }
    match view with
    | Except.ok v => (true, applyPrView s1 v)
    | Except.error msg =>
        (false, { s1 with
          prMergeStatus := PrMergeStatus.failed
          prMergeMessage := some ("Failed to refresh PR status: " ++ msg) })

/-- TS `executeMerge` (state part): mark `auto-merging` and submit
`gh pr merge --auto` (oracle `mergeCmd`); on a throw record the failure;
otherwise refresh once more (oracle `view2`) and, unless the PR is
already `merged`, settle on `auto-merging` with a waiting message. -/
def executeMerge (mergeCmd : Except String Unit) (view2 : Except String GhPrView)
    (s : RunState) : Bool × RunState :=
  if !prUrlTruthy s then (false, s)
  else
    let s1 := { s with
      prMergeStatus := PrMergeStatus.autoMerging
      prMergeMessage := some "Submitting merge request..." }
    match mergeCmd with
    | Except.error msg =>
        (false, { s1 with
          prMergeStatus := PrMergeStatus.failed
          prMergeMessage := some ("Failed to merge PR: " ++ msg) })
    | Except.ok _ =>
        let r2 := refreshRunPrStatus view2 s1
        if !r2.1 then
          (true, { r2.2 with
            prMergeStatus := PrMergeStatus.autoMerging
            prMergeMessage := some "Auto-merge enabled. Waiting for checks and merge." })
        else if r2.2.prMergeStatus ≠ PrMergeStatus.merged then
          (true, { r2.2 with
            prMergeStatus := PrMergeStatus.autoMerging
            prMergeMessage := some "Auto-merge enabled. Waiting for checks and merge." })
        else (true, r2.2)

/-- TS `maybeAutoMergeRun`: guard on auto-merge + PR URL + completed run;
refresh; bail out on a failed refresh; on `conflict` record the
resolve-and-merge hint and skip; request the merge only for `ready` or
`checking`.  Returns the final state and whether `executeMerge` was
invoked. -/
def maybeAutoMergeRun (view1 view2 : Except String GhPrView)
    (mergeCmd : Except String Unit) (s : RunState) : RunState × Bool :=
  if !(s.autoMerge && prUrlTruthy s && s.status == RunStatus.completed) then (s, false)
  else
    let r1 := refreshRunPrStatus view1 s
    if !r1.1 && r1.2.prMergeStatus = PrMergeStatus.failed then (r1.2, false)
    else if r1.2.prMergeStatus = PrMergeStatus.conflict then
      ({ r1.2 with
          prMergeMessage :=
            some "Auto-merge skipped because this PR has merge conflicts. Use Resolve & Merge." },
       false)
    else if r1.2.prMergeStatus = PrMergeStatus.ready
        || r1.2.prMergeStatus = PrMergeStatus.checking then
      let r2 := executeMerge mergeCmd view2 r1.2
      (r2.2, true)
    else (r1.2, false)

/-! ## Theorems -/

/-- Helper: a predicate implying another pointwise bounds `countP`. -/
theorem countP_le_of_imp {α : Type} (l : List α) (p q : α → Bool)
    (h : ∀ a ∈ l, p a = true → q a = true) : l.countP p ≤ l.countP q := by
  induction l with
  | nil => simp
  | cons a t ih =>
      have ht : ∀ b ∈ t, p b = true → q b = true := fun b hb => h b (List.mem_cons_of_mem a hb)
      by_cases hpa : p a = true
      · have hqa := h a (List.mem_cons_self a t) hpa
        simp [List.countP_cons, hpa, hqa]
        exact ih ht
      · have hpa' : p a = false := by
          cases hp : p a
          · rfl
          · exact absurd hp hpa
        simp [List.countP_cons, hpa']
        by_cases hqa : q a = true
        · simp [hqa]
          exact Nat.le_succ_of_le (ih ht)
        · have hqa' : q a = false := by
            cases hq : q a
            · rfl
            · exact absurd hq hqa
          simp [hqa']
          exact ih ht

/-- Helper: a failing execution whose output does not classify as a
network error makes the loop return that exit status at once. -/
theorem retryAux_nonNetwork (mx : Nat) (delays : List Nat)
    (results : Nat → String × Nat) (f α : Nat)
    (hα : α ≤ mx)
    (hfailed : (results α).2 ≠ 0)
    (hnn : is_network_error (results α).1 = false) :
    retryAux mx delays results (f + 1) α = ⟨1, [], Except.error (results α).2⟩ := by
  simp only [retryAux, if_pos hα, hnn]
  simp [hfailed]

/-- Helper: when every attempt up to the bound fails with a
network-classified output, the loop performs all remaining attempts,
sleeping the configured delays in between. -/
theorem retryAux_allNetwork (mx : Nat) (delays : List Nat)
    (results : Nat → String × Nat)
    (hfail : ∀ i, 1 ≤ i → i ≤ mx → (results i).2 ≠ 0 ∧ is_network_error (results i).1 = true) :
    ∀ f α, 1 ≤ α → α + f = mx →
      retryAux mx delays results (f + 1) α =
        ⟨f + 1,
         (List.range f).map (fun j => delayFor delays (α - 1 + j)),
         Except.error (results mx).2⟩ := by
  intro f
  induction f with
  | zero =>
      intro α h1 hsum
      have hαmx : α = mx := by omega
      subst hαmx
      obtain ⟨hf, hn⟩ := hfail α h1 (le_refl α)
      simp only [retryAux, if_pos (le_refl α), hn]
      simp [hf]
  | succ n ih =>
      intro α h1 hsum
      have hαle : α ≤ mx := by omega
      have hαlt : ¬ mx ≤ α := by omega
      obtain ⟨hf, hn⟩ := hfail α h1 hαle
      have hnn : ¬ ((!is_network_error (results α).1) = true) := by simp [hn]
      have hrec := ih (α + 1) (by omega) (by omega)
      rw [retryAux, if_pos hαle, if_neg hf, if_neg hnn, if_neg hαlt]
      simp only [hrec]
      refine congrArg₂ (RetryResult.mk (n + 1 + 1)) ?_ rfl
      rw [List.range_succ_eq_map, List.map_cons, List.map_map]
      refine congrArg₂ List.cons rfl ?_
      apply List.map_congr_left
      intro j _
      simp only [Function.comp]
      congr 1
      omega

/-- C2.  For every command wrapped by `retry_with_backoff`: a failure
whose combined output does not match the case-insensitive network-error
pattern set (e.g. `permission denied`) is returned immediately with no
retry and no sleep; when every execution fails with matching output
(e.g. `ECONNRESET`), the command is re-run exactly the configured number
of attempts, sleeping before the `i`-th retry for the `i`-th entry of the
configured delay list, the last entry being reused once the index passes
the end of the list. -/
theorem retry_with_backoff_spec (mx : Nat) (delays : List Nat)
    (results : Nat → String × Nat) (hmx : 1 ≤ mx) (hd : delays ≠ []) :
    (((results 1).2 ≠ 0 ∧ is_network_error (results 1).1 = false) →
        retry_with_backoff mx delays results = ⟨1, [], Except.error (results 1).2⟩)
    ∧ ((∀ i, 1 ≤ i → i ≤ mx → (results i).2 ≠ 0 ∧ is_network_error (results i).1 = true) →
        retry_with_backoff mx delays results =
          ⟨mx, (List.range (mx - 1)).map (fun j => delayFor delays j),
           Except.error (results mx).2⟩)
    ∧ (∀ idx, delays.length ≤ idx → delayFor delays idx = delays.getLast hd)
    ∧ is_network_error "curl: (56) ECONNRESET by peer" = true
    ∧ is_network_error "bash: /etc/shadow: permission denied" = false := by
  refine ⟨?_, ?_, ?_, by decide, by decide⟩
  · rintro ⟨hf, hn⟩
    obtain ⟨f, rfl⟩ : ∃ f, mx = f + 1 := ⟨mx - 1, by omega⟩
    exact retryAux_nonNetwork (f + 1) delays results f 1 hmx hf hn
  · intro hfail
    obtain ⟨f, rfl⟩ : ∃ f, mx = f + 1 := ⟨mx - 1, by omega⟩
    have h := retryAux_allNetwork (f + 1) delays results hfail f 1 (le_refl 1) (by omega)
    rw [retry_with_backoff, h]
    simp
  · intro idx hidx
    have hnone : delays.get? idx = none := by
      exact List.get?_eq_none.mpr hidx
    rw [delayFor, hnone]
    rw [List.getLast_eq_getElem]
    have hlen : delays.length - 1 < delays.length := by
      cases delays with
      | nil => exact absurd rfl hd
      | cons a t => simp
    rw [List.getD_eq_getElem?_getD, List.getElem?_eq_getElem hlen]
    rfl

/-- Witness for `retry_with_backoff_spec` at concrete inputs: three
attempts configured, delays `[10, 30]`; a persistent `ECONNRESET` failure
runs three times sleeping 10 s then 30 s; a `permission denied` failure
returns at once. -/
theorem retry_with_backoff_spec_witness :
    retry_with_backoff 3 [10, 30] (fun _ => ("ECONNRESET", 12)) =
      ⟨3, [10, 30], Except.error 12⟩
    ∧ retry_with_backoff 3 [10, 30] (fun _ => ("permission denied", 5)) =
      ⟨1, [], Except.error 5⟩ := by
  constructor
  · have h := (retry_with_backoff_spec 3 [10, 30] (fun _ => ("ECONNRESET", 12))
      (by decide) (by decide)).2.1 (fun i _ _ => ⟨by decide, by decide⟩)
    rw [h]
    rfl
  · exact (retry_with_backoff_spec 3 [10, 30] (fun _ => ("permission denied", 5))
      (by decide) (by decide)).1 ⟨by decide, by decide⟩

/-- C7 counterexample.  The claim asserts the [1,3] clamp also applies to
the `OPENCODE_LOOP_MAX_RETRIES` environment override; but with the config
file saying `2` and the environment saying `10`, `load_config` leaves
`MAX_RETRIES = 10` — the override is applied after the clamp and is not
re-validated (a non-numeric override even survives verbatim). -/
theorem load_config_max_retries_env_unclamped :
    load_config_max_retries (some "2") (some "10") = "10"
    ∧ 3 < digitsToNat (load_config_max_retries (some "2") (some "10"))
    ∧ load_config_max_retries none (some "abc") = "abc" := by
  refine ⟨rfl, by decide, rfl⟩

/-- C7 amended.  The [1,3] clamp (with non-numeric values replaced by 3,
values above 3 reduced to 3, values below 1 raised to 1) applies to the
value read from the config file, including the default; the
`OPENCODE_LOOP_MAX_RETRIES` environment override, applied afterwards, is
taken verbatim whenever it is set and nonempty. -/
theorem load_config_max_retries_spec (cfg : Option String) :
    (isDigits (load_config_max_retries cfg none) = true
      ∧ 1 ≤ digitsToNat (load_config_max_retries cfg none)
      ∧ digitsToNat (load_config_max_retries cfg none) ≤ 3)
    ∧ (∀ e : String, e ≠ "" → load_config_max_retries cfg (some e) = e)
    ∧ load_config_max_retries cfg (some "") = load_config_max_retries cfg none := by
  refine ⟨?_, ?_, ?_⟩
  · show isDigits (load_config_max_retries cfg none) = true
      ∧ 1 ≤ digitsToNat (load_config_max_retries cfg none)
      ∧ digitsToNat (load_config_max_retries cfg none) ≤ 3
    rw [load_config_max_retries.eq_def]
    cases cfg with
    | none =>
        simp only []
        decide
    | some s =>
        by_cases hs : s = ""
        · subst hs; decide
        · simp only [if_neg hs]
          by_cases hd : isDigits s = true
          · simp only [hd, if_pos rfl, if_true]
            by_cases hgt : digitsToNat s > 3
            · simp [hgt]
              decide
            · simp only [if_neg hgt]
              by_cases hlt : digitsToNat s < 1
              · simp [hlt]
                decide
              · simp only [if_neg hlt]
                exact ⟨hd, by omega, by omega⟩
          · have hd' : isDigits s = false := by
              cases h : isDigits s
              · rfl
              · exact absurd h hd
            simp [hd']
            decide
  · intro e he
    rw [load_config_max_retries.eq_def]
    simp [he]
  · rw [load_config_max_retries.eq_def, load_config_max_retries.eq_def]
    simp

/-- Witness for `load_config_max_retries_spec`: a config value of `7` is
clamped to `3`, and an environment override of `10` is taken verbatim. -/
theorem load_config_max_retries_spec_witness :
    load_config_max_retries (some "7") none = "3"
    ∧ ("10" ≠ "" ∧ load_config_max_retries (some "7") (some "10") = "10") :=
  ⟨by decide, by decide, (load_config_max_retries_spec (some "7")).2.1 "10" (by decide)⟩

/-- C8.  Evaluation at the claim's example: for the slug output
`fix-login-bug` the generated branch name is `opencode/fix-login-bug`
for EVERY configured prefix — `generate_branch_name` hard-codes the
`opencode/` prefix and never reads the `OPENCODE_LOOP_BRANCH_PREFIX`
value the Electron app exports (default `codeloop`), so the configured
prefix (`codeloop` in the spec's own example) is never produced.  The
token rules themselves hold on this input: at most 3 stop-word-filtered,
non-numeric tokens of at most 10 characters, and the numeric `task-`
fallback when nothing is left. -/
theorem generate_branch_name_ignores_prefix :
    (∀ (pfx : String) (rand : Nat),
        generate_branch_name pfx "fix-login-bug" rand = "opencode/fix-login-bug")
    ∧ generate_branch_name "codeloop" "fix-login-bug" 0 ≠ "codeloop/fix-login-bug"
    ∧ generate_branch_name "codeloop" "Fix The Login Bug For Real This Time!!" 5 =
        "opencode/fix-login-bug"
    ∧ generate_branch_name "codeloop" "123 456" 7 = "opencode/task-7" := by
  refine ⟨fun pfx rand => ?_, by decide, by decide, rfl⟩
  rfl


/-- The push/PR segment leaves the `fixRan` flag unchanged. -/
theorem pipelineFromPush_fixRan (env : PipelineEnv) (l : List (String × String)) (fr : Bool) :
    (pipelineFromPush env l fr).fixRan = fr := by
  simp only [pipelineFromPush]
  split_ifs <;> rfl

/-- The commit segment leaves the `fixRan` flag unchanged. -/
theorem pipelineFromCommit_fixRan (env : PipelineEnv) (l : List (String × String)) (fr : Bool) :
    (pipelineFromCommit env l fr).fixRan = fr := by
  simp only [pipelineFromCommit]
  split_ifs <;> first | rfl | apply pipelineFromPush_fixRan

/-- Log lines already emitted stay in the log through the push segment. -/
theorem pipelineFromPush_logs_mono (env : PipelineEnv) (l : List (String × String))
    (fr : Bool) (m : String × String) (h : m ∈ l) : m ∈ (pipelineFromPush env l fr).logs := by
  simp only [pipelineFromPush]
  split_ifs <;> simp [List.mem_append, h]

/-- Log lines already emitted stay in the log through the commit segment. -/
theorem pipelineFromCommit_logs_mono (env : PipelineEnv) (l : List (String × String))
    (fr : Bool) (m : String × String) (h : m ∈ l) : m ∈ (pipelineFromCommit env l fr).logs := by
  simp only [pipelineFromCommit]
  split_ifs <;>
    first
      | (apply pipelineFromPush_logs_mono; simp [List.mem_append, h])
      | simp [List.mem_append, h]

/-- With staging succeeding on an empty tree, the commit segment fails
with the `Nothing to commit` log line and runs nothing further. -/
theorem pipelineFromCommit_nothing (env : PipelineEnv) (l : List (String × String)) (fr : Bool)
    (hadd : env.gitAddOk = true) (hpor : env.porcelain = "") :
    pipelineFromCommit env l fr =
      { ok := false
        logs := (l ++ [("COMMIT", "Preparing commit")]) ++
          [("COMMIT", "No changes after implementation/review. Nothing to commit.")]
        fixRan := fr, pushCmdRan := false, prCreateRan := false } := by
  simp [pipelineFromCommit, hadd, hpor]

/-- C6.  When control reaches the Commit phase (review succeeded, and the
Fix agent did not abort the run) and the staged working tree is empty
(`git status --porcelain` prints nothing), the pipeline returns failure,
logs the distinct `Nothing to commit` message under the COMMIT tag, and
neither `git push` nor `gh pr create` is executed. -/
theorem run_pipeline_nothing_to_commit (env : PipelineEnv)
    (hrev : env.reviewOk = true) (hfix : env.fixOk = true)
    (hadd : env.gitAddOk = true) (hpor : env.porcelain = "") :
    (run_pipeline_from_review env).ok = false
    ∧ ("COMMIT", "No changes after implementation/review. Nothing to commit.")
        ∈ (run_pipeline_from_review env).logs
    ∧ (run_pipeline_from_review env).pushCmdRan = false
    ∧ (run_pipeline_from_review env).prCreateRan = false := by
  have key : ∀ (l : List (String × String)) (fr : Bool),
      (pipelineFromCommit env l fr).ok = false
      ∧ ("COMMIT", "No changes after implementation/review. Nothing to commit.")
          ∈ (pipelineFromCommit env l fr).logs
      ∧ (pipelineFromCommit env l fr).pushCmdRan = false
      ∧ (pipelineFromCommit env l fr).prCreateRan = false := by
    intro l fr
    rw [pipelineFromCommit_nothing env l fr hadd hpor]
    simp
  by_cases hl : reviewIsLgtm (cleanup_text_output env.reviewRaw) = true
  · simp only [run_pipeline_from_review, hrev, hfix, hl]
    simp only [Bool.not_true, Bool.false_eq_true, if_false]
    exact key _ _
  · have hl2 : reviewIsLgtm (cleanup_text_output env.reviewRaw) = false := by
      cases h : reviewIsLgtm (cleanup_text_output env.reviewRaw)
      · rfl
      · exact absurd h hl
    simp only [run_pipeline_from_review, hrev, hfix, hl2]
    simp only [Bool.not_true, Bool.not_false, if_true, Bool.false_eq_true, if_false]
    exact key _ _

/-- Witness for `run_pipeline_nothing_to_commit` at a concrete
environment: review returns `LGTM`, staging leaves an empty tree. -/
def envNothingToCommit : PipelineEnv :=
  { modelReview := "m1", modelFix := "m2", modelPr := "m3",
    branchName := "opencode/demo", reviewOk := true, reviewRaw := "LGTM",
    fixOk := true, gitAddOk := true, porcelain := "", gitDiffStagedOk := true,
    commitMsgOk := true, commitMsgRaw := "chore: x", gitCommitOk := true,
    repoDetected := true, pushTarget := "origin", pushOk := true,
    remoteBranchVisible := true, fetchOk := true, aheadCount := 1,
    prDiffOk := true, prGenOk := true, prGenRaw := "", prCreateOk := true,
    prUrlOut := "https://github.com/a/b/pull/1", dur := 1 }

/-- Witness applying `run_pipeline_nothing_to_commit` to
`envNothingToCommit`. -/
theorem run_pipeline_nothing_to_commit_witness :
    envNothingToCommit.reviewOk = true ∧ envNothingToCommit.porcelain = ""
    ∧ (run_pipeline_from_review envNothingToCommit).ok = false
    ∧ ("COMMIT", "No changes after implementation/review. Nothing to commit.")
        ∈ (run_pipeline_from_review envNothingToCommit).logs
    ∧ (run_pipeline_from_review envNothingToCommit).pushCmdRan = false
    ∧ (run_pipeline_from_review envNothingToCommit).prCreateRan = false := by
  have h := run_pipeline_nothing_to_commit envNothingToCommit rfl rfl rfl rfl
  exact ⟨rfl, rfl, h.1, h.2.1, h.2.2.1, h.2.2.2⟩

/-- Concrete environment for the Fix-gate analysis: the review output has
a real issue line followed by a line reading `LGTM`. -/
def envReviewWithLgtmLine : PipelineEnv :=
  { modelReview := "m1", modelFix := "m2", modelPr := "m3",
    branchName := "opencode/demo", reviewOk := true,
    reviewRaw := "src/a.c:12: off-by-one in loop bound\nLGTM",
    fixOk := true, gitAddOk := true, porcelain := "M src/a.c",
    gitDiffStagedOk := true, commitMsgOk := true, commitMsgRaw := "fix: a",
    gitCommitOk := true, repoDetected := true, pushTarget := "origin",
    pushOk := true, remoteBranchVisible := true, fetchOk := true,
    aheadCount := 1, prDiffOk := true, prGenOk := true, prGenRaw := "",
    prCreateOk := true, prUrlOut := "https://github.com/a/b/pull/2", dur := 1 }

/-- C3 counterexample.  The claim says Fix is skipped only when the
cleaned review response is exactly `LGTM` (case-insensitively), and that
every other non-empty cleaned response runs Fix.  The gate is
`grep -Eiq` applied per line: a cleaned two-line response
`src/a.c:12: off-by-one in loop bound` + `LGTM` is neither empty nor
(case-insensitively) equal to `LGTM`, yet Fix is skipped. -/
theorem run_pipeline_fix_counterexample :
    cleanup_text_output envReviewWithLgtmLine.reviewRaw ≠ "LGTM"
    ∧ strToUpper (cleanup_text_output envReviewWithLgtmLine.reviewRaw) ≠ "LGTM"
    ∧ cleanup_text_output envReviewWithLgtmLine.reviewRaw ≠ ""
    ∧ (run_pipeline_from_review envReviewWithLgtmLine).fixRan = false
    ∧ ("FIX", "Skipped fix phase because review response is LGTM")
        ∈ (run_pipeline_from_review envReviewWithLgtmLine).logs := by
  refine ⟨by decide, by decide, by decide, rfl, by decide⟩

/-- C3 amended.  The Fix phase is skipped exactly when some line of the
cleaned review response equals `LGTM` case-insensitively (so a response
that is exactly `LGTM` in any case skips Fix, and a cleaned response none
of whose lines is `LGTM` — in particular any other single-line non-empty
response — runs Fix); the skip is logged. -/
theorem run_pipeline_fix_gate (env : PipelineEnv) (hrev : env.reviewOk = true) :
    (run_pipeline_from_review env).fixRan
      = !(reviewIsLgtm (cleanup_text_output env.reviewRaw))
    ∧ (reviewIsLgtm (cleanup_text_output env.reviewRaw) = true →
        ("FIX", "Skipped fix phase because review response is LGTM")
          ∈ (run_pipeline_from_review env).logs)
    ∧ reviewIsLgtm "LGTM" = true ∧ reviewIsLgtm "lgtm" = true
    ∧ reviewIsLgtm "" = false := by
  refine ⟨?_, ?_, by decide, by decide, by decide⟩
  · by_cases hl : reviewIsLgtm (cleanup_text_output env.reviewRaw) = true
    · simp only [run_pipeline_from_review, hrev, hl]
      simp only [Bool.not_true, Bool.false_eq_true, if_false]
      exact pipelineFromCommit_fixRan _ _ _
    · have hl2 : reviewIsLgtm (cleanup_text_output env.reviewRaw) = false := by
        cases h : reviewIsLgtm (cleanup_text_output env.reviewRaw)
        · rfl
        · exact absurd h hl
      simp only [run_pipeline_from_review, hrev, hl2]
      simp only [Bool.not_true, Bool.not_false, if_true, Bool.false_eq_true, if_false]
      by_cases hfx : env.fixOk = true
      · simp only [hfx, Bool.not_true, Bool.false_eq_true, if_false]
        exact pipelineFromCommit_fixRan _ _ _
      · have hfx2 : env.fixOk = false := by
          cases h : env.fixOk
          · rfl
          · exact absurd h hfx
        simp [hfx2]
  · intro hl
    simp only [run_pipeline_from_review, hrev, hl]
    simp only [Bool.not_true, Bool.false_eq_true, if_false]
    apply pipelineFromCommit_logs_mono
    simp

/-- Witness for `run_pipeline_fix_gate`: with a cleaned single-line
`lgtm` response Fix does not run and the skip line is logged. -/
theorem run_pipeline_fix_gate_witness :
    (let env := { envReviewWithLgtmLine with reviewRaw := "lgtm" }
     env.reviewOk = true
     ∧ (run_pipeline_from_review env).fixRan = false
     ∧ ("FIX", "Skipped fix phase because review response is LGTM")
         ∈ (run_pipeline_from_review env).logs) := by
  refine ⟨rfl, ?_, ?_⟩
  · have h := (run_pipeline_fix_gate { envReviewWithLgtmLine with reviewRaw := "lgtm" } rfl).1
    rw [h]
    decide
  · exact (run_pipeline_fix_gate { envReviewWithLgtmLine with reviewRaw := "lgtm" } rfl).2.1
      (by decide)

/-- Membership form of `inferCompletedFromLogs`. -/
theorem inferCompletedFromLogs_iff (s : RunState) :
    inferCompletedFromLogs s = true ↔
      ∃ e ∈ s.logs, strToUpper e.phase = "DONE" ∧ strHas e.message "Total duration:" = true := by
  simp [inferCompletedFromLogs, List.any_eq_true, Bool.and_eq_true, decide_eq_true_eq]

/-- Pointwise description of `completeActivePhases`: active phases of the
fixed set become `st`, everything else is untouched. -/
theorem completeActivePhases_spec (m : PhaseMap) (st : PhaseStatus) :
    (∀ p ∈ PIPELINE_PHASES, m p = some PhaseStatus.active →
        completeActivePhases m st p = some st)
    ∧ (∀ p, m p ≠ some PhaseStatus.active → completeActivePhases m st p = m p) := by
  constructor
  · intro p hp hact
    simp [completeActivePhases, hact, hp]
  · intro p hact
    simp only [completeActivePhases]
    by_cases hc : (PIPELINE_PHASES.contains p && (m p == some PhaseStatus.active)) = true
    · exact absurd (beq_iff_eq.mp ((Bool.and_eq_true _ _).mp hc).2) hact
    · simp [hc]
      intro _ h2
      exact absurd h2 hact

/-- C4.  Finalizing a background run found dead while still `running`
stamps `finishedAt` and sets the status to `completed` exactly when the
retained logs contain a `DONE`-phase entry whose message contains
`Total duration:` (and to `failed` otherwise); every still-`active` phase
of the fixed set is mapped to `completed` respectively `failed`, and no
other phase entry changes. -/
theorem finalizeBackgroundRun_spec (s : RunState) (now : Nat)
    (hrun : s.status = RunStatus.running) :
    ((finalizeBackgroundRun now s).status = RunStatus.completed ↔
      ∃ e ∈ s.logs, strToUpper e.phase = "DONE" ∧ strHas e.message "Total duration:" = true)
    ∧ ((finalizeBackgroundRun now s).status = RunStatus.completed ∨
       (finalizeBackgroundRun now s).status = RunStatus.failed)
    ∧ (finalizeBackgroundRun now s).finishedAt = some now
    ∧ (∀ p ∈ PIPELINE_PHASES, s.phases p = some PhaseStatus.active →
        (finalizeBackgroundRun now s).phases p =
          some (if (finalizeBackgroundRun now s).status = RunStatus.completed
                then PhaseStatus.completed else PhaseStatus.failed))
    ∧ (∀ p, s.phases p ≠ some PhaseStatus.active →
        (finalizeBackgroundRun now s).phases p = s.phases p) := by
  have hne : ¬ s.status ≠ RunStatus.running := by simp [hrun]
  by_cases hinf : inferCompletedFromLogs s = true
  · have heq : finalizeBackgroundRun now s =
        { s with
          finishedAt := some now
          status := RunStatus.completed
          phases := completeActivePhases s.phases PhaseStatus.completed } := by
      have hinf2 : inferCompletedFromLogs { s with finishedAt := some now } = true := hinf
      simp only [finalizeBackgroundRun, if_neg hne, hinf2, if_true]
    rw [heq]
    refine ⟨iff_of_true rfl ((inferCompletedFromLogs_iff s).mp hinf), Or.inl rfl, rfl, ?_, ?_⟩
    · intro p hp hact
      simp only [if_pos rfl]
      exact (completeActivePhases_spec s.phases PhaseStatus.completed).1 p hp hact
    · intro p hact
      exact (completeActivePhases_spec s.phases PhaseStatus.completed).2 p hact
  · have hinf2 : inferCompletedFromLogs { s with finishedAt := some now } = false := by
      cases h : inferCompletedFromLogs s
      · exact h
      · exact absurd h hinf
    have heq : finalizeBackgroundRun now s =
        { s with
          finishedAt := some now
          status := RunStatus.failed
          phases := completeActivePhases s.phases PhaseStatus.failed } := by
      simp only [finalizeBackgroundRun, if_neg hne, hinf2, Bool.false_eq_true, if_false]
    rw [heq]
    have hnotex : ¬ ∃ e ∈ s.logs, strToUpper e.phase = "DONE"
        ∧ strHas e.message "Total duration:" = true := by
      intro hex
      exact hinf ((inferCompletedFromLogs_iff s).mpr hex)
    refine ⟨iff_of_false (by simp) hnotex, Or.inr rfl, rfl, ?_, ?_⟩
    · intro p hp hact
      have hns : (RunStatus.failed = RunStatus.completed) = False := by simp
      simp only [hns, if_false]
      exact (completeActivePhases_spec s.phases PhaseStatus.failed).1 p hp hact
    · intro p hact
      exact (completeActivePhases_spec s.phases PhaseStatus.failed).2 p hact

/-- A `DONE`-phase entry carrying the terminal duration message. -/
def bgDoneEntry : LogEntry :=
  { timestamp := "12:00:00", phase := "DONE", message := "Total duration: 42s",
    raw := "[12:00:00] [DONE] Total duration: 42s" }

/-- A background run still `running` whose retained log holds the
terminal duration line. -/
def bgDoneRun : RunState :=
  { startRunInitialState "bg1" false false true false 0 with
    logs := [bgDoneEntry]
    pid := some 4242
    logFilePath := some "/tmp/run.log" }

/-- Witness for `finalizeBackgroundRun_spec`: the spec's own example — a
dead background run whose log contains `[DONE] Total duration: 42s`
finalizes as `completed`, not `failed`. -/
theorem finalizeBackgroundRun_spec_witness :
    bgDoneRun.status = RunStatus.running
    ∧ (finalizeBackgroundRun 99 bgDoneRun).status = RunStatus.completed
    ∧ (finalizeBackgroundRun 99 bgDoneRun).finishedAt = some 99 := by
  have h := finalizeBackgroundRun_spec bgDoneRun 99 rfl
  exact ⟨rfl, h.1.mpr ⟨bgDoneEntry, by decide, by decide, by decide⟩, h.2.2.1⟩

/-- A persisted background run, still `running`, whose recorded pid is
alive but whose log-file path was never recorded (persisted before the
background bootstrap line arrived). -/
def orphanNoLogPath : RunState :=
  { startRunInitialState "orphan1" false false true false 0 with pid := some 42 }

/-- Aliveness oracle for `orphanNoLogPath`: exactly pid 42 is alive. -/
def aliveOnly42 : Int → Bool := fun p => p == 42

/-- C5 counterexample.  The claim says that for a persisted `running`
background run with an alive process id, the run is re-adopted AND log
tailing resumes.  With no persisted log-file path the run is re-adopted
but `startBackgroundLogPolling` is never started (guarded twice on
`logFilePath`), so tailing does not resume. -/
theorem loadPersistedRunStep_counterexample :
    orphanNoLogPath.status = RunStatus.running
    ∧ orphanNoLogPath.runMode = RunMode.background
    ∧ isProcessAlive aliveOnly42 orphanNoLogPath.pid = true
    ∧ (loadPersistedRunStep aliveOnly42 1000 "ts" orphanNoLogPath).adopted = true
    ∧ (loadPersistedRunStep aliveOnly42 1000 "ts" orphanNoLogPath).pollingStarted = false := by
  refine ⟨rfl, rfl, rfl, rfl, rfl⟩

/-- C5 amended.  At startup every persisted Run still `running` is
reconciled: a background run whose recorded process id is alive is
re-adopted into the active set, and log tailing resumes exactly when a
log-file path was persisted; any other still-`running` run is marked
`stopped`, `finishedAt` is backfilled with the current time when absent,
and the synthetic `Run marked as stopped after app restart` entry is
appended. -/
theorem loadPersistedRunStep_spec (alive : Int → Bool) (now : Nat) (ts : String)
    (run : RunState) (hrun : run.status = RunStatus.running) :
    ((run.runMode = RunMode.background ∧ isProcessAlive alive run.pid = true) →
      loadPersistedRunStep alive now ts run =
        { state := run, adopted := true, pollingStarted := run.logFilePath.isSome })
    ∧ (¬(run.runMode = RunMode.background ∧ isProcessAlive alive run.pid = true) →
      (loadPersistedRunStep alive now ts run).adopted = false
      ∧ (loadPersistedRunStep alive now ts run).pollingStarted = false
      ∧ (loadPersistedRunStep alive now ts run).state.status = RunStatus.stopped
      ∧ (loadPersistedRunStep alive now ts run).state.finishedAt
          = some (run.finishedAt.getD now)
      ∧ (loadPersistedRunStep alive now ts run).state.logs
          = run.logs ++ [syntheticStopEntry ts]) := by
  constructor
  · rintro ⟨hbg, halive⟩
    simp [loadPersistedRunStep, hrun, hbg, halive]
  · intro hnot
    have hcond : (run.runMode = RunMode.background && isProcessAlive alive run.pid) = false := by
      by_cases hbg : run.runMode = RunMode.background
      · have halive : isProcessAlive alive run.pid = false := by
          cases h : isProcessAlive alive run.pid
          · rfl
          · exact absurd ⟨hbg, h⟩ hnot
        simp [halive]
      · simp [hbg]
    simp [loadPersistedRunStep, hrun, hcond]

/-- Witness for `loadPersistedRunStep_spec`: a foreground run persisted as
`running` is forced to `stopped` with the synthetic log entry. -/
theorem loadPersistedRunStep_spec_witness :
    (startRunInitialState "fg1" false false false false 7).status = RunStatus.running
    ∧ (loadPersistedRunStep aliveOnly42 1000 "ts"
        (startRunInitialState "fg1" false false false false 7)).state.status
        = RunStatus.stopped
    ∧ (loadPersistedRunStep aliveOnly42 1000 "ts"
        (startRunInitialState "fg1" false false false false 7)).state.logs
        = [syntheticStopEntry "ts"] := by
  have h := (loadPersistedRunStep_spec aliveOnly42 1000 "ts"
    (startRunInitialState "fg1" false false false false 7) rfl).2 (by decide)
  exact ⟨rfl, h.2.2.1, by rw [h.2.2.2.2]; rfl⟩

/-! ## Theorems on `stopRun` -/

/-- TS `getRunById` — the active record shadows the persisted copy. -/
def getRunById (active persisted : Option RunState) : Option RunState :=
  match active with
  | some a => some a
  | Option.none => persisted

/-- C10.  `stopRun` returns `true` exactly when a run with the id exists
(active preferred over persisted) and its status is `running`; whenever
it returns `false` it mutates nothing, broadcasts nothing, persists
nothing, stops no polling and delivers no signal. -/
theorem stopRun_spec (active persisted : Option RunState)
    (hasChildHandle killFails : Bool) (now : Nat) :
    ((stopRun active persisted hasChildHandle killFails now).1 = true ↔
      ∃ t, getRunById active persisted = some t ∧ t.status = RunStatus.running)
    ∧ ((stopRun active persisted hasChildHandle killFails now).1 = false →
        stopRun active persisted hasChildHandle killFails now
          = (false, none, noStopEffects)) := by
  match active, persisted with
  | Option.none, Option.none =>
      refine ⟨?_, fun _ => rfl⟩
      simp [stopRun, getRunById]
  | Option.none, some p =>
      by_cases hp : p.status = RunStatus.running
      · have h1 : ¬ (p.status ≠ RunStatus.running) := by simp [hp]
        constructor
        · simp only [stopRun, if_neg h1, stopRunBody, getRunById]
          simp [hp]
        · simp only [stopRun, if_neg h1, stopRunBody]
          intro hfalse
          simp at hfalse
      · have h1 : p.status ≠ RunStatus.running := hp
        constructor
        · simp only [stopRun, if_pos h1, getRunById]
          simp [hp]
        · intro _
          simp only [stopRun, if_pos h1]
  | some a, _ =>
      by_cases ha : a.status = RunStatus.running
      · have h1 : ¬ (a.status ≠ RunStatus.running) := by simp [ha]
        constructor
        · simp only [stopRun, if_neg h1, stopRunBody, getRunById]
          simp [ha]
        · simp only [stopRun, if_neg h1, stopRunBody]
          intro hfalse
          simp at hfalse
      · have h1 : a.status ≠ RunStatus.running := ha
        constructor
        · simp only [stopRun, if_pos h1, getRunById]
          simp [ha]
        · intro _
          simp only [stopRun, if_pos h1]

/-- Witness for `stopRun_spec`: stopping an already-`completed` persisted
run returns `false` and performs no effects; stopping a `running` active
run returns `true`. -/
theorem stopRun_spec_witness :
    (stopRun none (some { startRunInitialState "w1" false false false false 0 with
        status := RunStatus.completed }) false false 5).1 = false
    ∧ stopRun none (some { startRunInitialState "w1" false false false false 0 with
        status := RunStatus.completed }) false false 5 = (false, none, noStopEffects)
    ∧ (stopRun (some (startRunInitialState "w2" false false false false 0)) none
        false false 5).1 = true := by
  refine ⟨rfl, ?_, ?_⟩
  · exact (stopRun_spec none (some { startRunInitialState "w1" false false false false 0 with
      status := RunStatus.completed }) false false 5).2 rfl
  · exact (stopRun_spec (some (startRunInitialState "w2" false false false false 0)) none
      false false 5).1.mpr ⟨_, rfl, rfl⟩

/-! ## Theorems on the PR Lifecycle Manager -/

/-- A completed run with a PR URL and auto-merge requested. -/
def c9Run : RunState :=
  { startRunInitialState "r9" false false false true 0 with
    status := RunStatus.completed
    prUrl := some "https://github.com/a/b/pull/7" }

/-- A `gh pr view` response for an already-merged PR. -/
def c9MergedView : GhPrView :=
  { url := "https://github.com/a/b/pull/7", title := "feat: x", number := 7,
    state := "MERGED", mergeable := "UNKNOWN", headRefName := "h", baseRefName := "main" }

/-- C9 counterexample.  The claim says the merge is skipped only when the
refreshed merge status is `conflict`; but when the refresh reports the PR
already `merged` (state `MERGED`), `maybeAutoMergeRun` falls through both
the conflict branch and the `ready`/`checking` branch and never requests
the merge, even though the refreshed status is not `conflict`. -/
theorem maybeAutoMergeRun_counterexample :
    c9Run.autoMerge = true ∧ c9Run.status = RunStatus.completed
    ∧ prUrlTruthy c9Run = true
    ∧ (refreshRunPrStatus (Except.ok c9MergedView) c9Run).1 = true
    ∧ (refreshRunPrStatus (Except.ok c9MergedView) c9Run).2.prMergeStatus
        = PrMergeStatus.merged
    ∧ (maybeAutoMergeRun (Except.ok c9MergedView) (Except.ok c9MergedView)
        (Except.ok ()) c9Run).2 = false := by
  refine ⟨rfl, rfl, by decide, rfl, rfl, rfl⟩

/-- C9 amended.  After a run finishes `completed` with a PR URL and
auto-merge requested, the manager refreshes mergeability and then
requests the merge exactly when the refreshed merge status is `ready` or
`checking`; on `conflict` it records the message directing to the
explicit resolve-and-merge path and skips; when the refresh fails, or
reports the PR already `merged`, no merge is requested. -/
theorem maybeAutoMergeRun_spec (view1 view2 : Except String GhPrView)
    (mergeCmd : Except String Unit) (s : RunState)
    (ham : s.autoMerge = true) (hurl : prUrlTruthy s = true)
    (hst : s.status = RunStatus.completed) :
    ((maybeAutoMergeRun view1 view2 mergeCmd s).2 = true ↔
      ((refreshRunPrStatus view1 s).2.prMergeStatus = PrMergeStatus.ready ∨
       (refreshRunPrStatus view1 s).2.prMergeStatus = PrMergeStatus.checking))
    ∧ ((refreshRunPrStatus view1 s).2.prMergeStatus = PrMergeStatus.conflict →
        (maybeAutoMergeRun view1 view2 mergeCmd s).2 = false
        ∧ (maybeAutoMergeRun view1 view2 mergeCmd s).1.prMergeMessage =
            some "Auto-merge skipped because this PR has merge conflicts. Use Resolve & Merge.") := by
  have hguard : (s.autoMerge && prUrlTruthy s && s.status == RunStatus.completed) = true := by
    simp [ham, hurl, hst]
  have hnot : (!(s.autoMerge && prUrlTruthy s && s.status == RunStatus.completed)) = false := by
    simp [hguard]
  match view1 with
  | Except.error msg =>
      have hfail : (refreshRunPrStatus (Except.error msg) s).1 = false := by
        simp [refreshRunPrStatus, hurl]
      have hfst : (refreshRunPrStatus (Except.error msg) s).2.prMergeStatus
          = PrMergeStatus.failed := by
        simp [refreshRunPrStatus, hurl]
      constructor
      · simp only [maybeAutoMergeRun, hnot, Bool.false_eq_true, if_false, hfail, hfst]
        simp
      · intro hc
        rw [hfst] at hc
        exact absurd hc (by decide)
  | Except.ok v =>
      have hok : (refreshRunPrStatus (Except.ok v) s).1 = true := by
        simp [refreshRunPrStatus, hurl]
      have hbail : ¬ ((!(refreshRunPrStatus (Except.ok v) s).1) = true
          ∧ (refreshRunPrStatus (Except.ok v) s).2.prMergeStatus = PrMergeStatus.failed) := by
        rintro ⟨h1, _⟩
        rw [hok] at h1
        exact absurd h1 (by decide)
      by_cases hc : (refreshRunPrStatus (Except.ok v) s).2.prMergeStatus
          = PrMergeStatus.conflict
      · constructor
        · simp only [maybeAutoMergeRun, hnot, Bool.false_eq_true, if_false, hok, hc]
          simp
        · intro _
          simp only [maybeAutoMergeRun, hnot, Bool.false_eq_true, if_false, hok, hc]
          simp
      · constructor
        · by_cases hrc : (refreshRunPrStatus (Except.ok v) s).2.prMergeStatus
              = PrMergeStatus.ready
            ∨ (refreshRunPrStatus (Except.ok v) s).2.prMergeStatus = PrMergeStatus.checking
          · simp only [maybeAutoMergeRun, hnot, Bool.false_eq_true, if_false, hok, hc]
            simp [hrc, hc]
          · simp only [maybeAutoMergeRun, hnot, Bool.false_eq_true, if_false, hok, hc]
            simp [hrc, hc]
        · intro hcc
          exact absurd hcc hc

/-- Witness for `maybeAutoMergeRun_spec`: a mergeable view (`MERGEABLE`)
leads to a merge request. -/
theorem maybeAutoMergeRun_spec_witness :
    c9Run.autoMerge = true ∧ prUrlTruthy c9Run = true
    ∧ c9Run.status = RunStatus.completed
    ∧ (maybeAutoMergeRun
        (Except.ok { c9MergedView with state := "OPEN", mergeable := "MERGEABLE" })
        (Except.ok { c9MergedView with state := "OPEN", mergeable := "MERGEABLE" })
        (Except.ok ()) c9Run).2 = true := by
  refine ⟨rfl, by decide, rfl, ?_⟩
  exact (maybeAutoMergeRun_spec
    (Except.ok { c9MergedView with state := "OPEN", mergeable := "MERGEABLE" })
    (Except.ok { c9MergedView with state := "OPEN", mergeable := "MERGEABLE" })
    (Except.ok ()) c9Run rfl (by decide) rfl).1.mpr (Or.inl (by decide))

/-! ## Phase-map invariants (C1) -/

/-- Totality: every phase of the fixed 9-phase set is assigned a status. -/
abbrev phasesTotal (m : PhaseMap) : Prop :=
  ∀ p ∈ PIPELINE_PHASES, (m p).isSome = true

abbrev activeCount (m : PhaseMap) : Nat :=
  PIPELINE_PHASES.countP (fun p => m p == some PhaseStatus.active)

abbrev atMostOneActive (m : PhaseMap) : Prop :=
  activeCount m ≤ 1

def replayLog (init : RunState) (entries : List LogEntry) : RunState :=
  entries.foldl handleLogEntry init

theorem countP_le_one_of_unique (pred : String → Bool) (pu : String)
    (h : ∀ p ∈ PIPELINE_PHASES, pred p = true → p = pu) :
    PIPELINE_PHASES.countP pred ≤ 1 := by
  have h1 : PIPELINE_PHASES.countP pred ≤ PIPELINE_PHASES.countP (fun p => p == pu) :=
    countP_le_of_imp _ _ _ (fun a ha hp => beq_iff_eq.mpr (h a ha hp))
  have h2 : PIPELINE_PHASES.countP (fun p => p == pu) = PIPELINE_PHASES.count pu := rfl
  have h3 : PIPELINE_PHASES.count pu ≤ 1 :=
    List.nodup_iff_count_le_one.mp (by decide) pu
  omega

theorem demoteOtherActives_pu (m : PhaseMap) (pu : String) :
    demoteOtherActives m pu pu = m pu := by
  simp [demoteOtherActives]

theorem demote_cases (m : PhaseMap) (pu x : String) :
    (demoteOtherActives m pu x = some PhaseStatus.completed
      ∧ m x = some PhaseStatus.active ∧ x ≠ pu)
    ∨ demoteOtherActives m pu x = m x := by
  unfold demoteOtherActives
  split_ifs with h
  · simp only [Bool.and_eq_true, beq_iff_eq, decide_eq_true_eq] at h
    exact Or.inl ⟨rfl, h.1.2, h.2⟩
  · exact Or.inr rfl

theorem demote_not_active (m : PhaseMap) (pu p : String)
    (hp : p ∈ PIPELINE_PHASES) (hne : p ≠ pu) :
    (demoteOtherActives m pu p == some PhaseStatus.active) = false := by
  have hc : PIPELINE_PHASES.contains p = true := List.elem_eq_true_of_mem hp
  by_cases hact : (m p == some PhaseStatus.active) = true
  · simp [demoteOtherActives, hc, hact, hne, hp]
  · have hact2 : (m p == some PhaseStatus.active) = false := by
      cases h : (m p == some PhaseStatus.active)
      · rfl
      · exact absurd h hact
    simp [demoteOtherActives, hact2]

theorem setPhase_ne (m : PhaseMap) (k v) (p : String) (h : p ≠ k) :
    setPhase m k v p = m p := by
  simp [setPhase, h]

theorem setPhase_eq (m : PhaseMap) (k v) : setPhase m k v k = some v := by
  simp [setPhase]

theorem updatePhaseStatus_phases (s : RunState) (ph p : String) :
    ((updatePhaseStatus s ph).phases p = s.phases p)
    ∨ ((updatePhaseStatus s ph).phases p = some PhaseStatus.completed
        ∧ s.phases p = some PhaseStatus.active)
    ∨ ((updatePhaseStatus s ph).phases p = some PhaseStatus.active
        ∧ s.phases p ≠ some PhaseStatus.skipped) := by
  simp only [updatePhaseStatus]
  split_ifs with h1 h2
  · simp only []
    by_cases hppu : p = strToUpper ph
    · rw [hppu]
      right; right
      refine ⟨setPhase_eq _ _ _, ?_⟩
      rw [← demoteOtherActives_pu s.phases (strToUpper ph)]
      exact h2
    · rcases demote_cases s.phases (strToUpper ph) p with ⟨hA, hB, _⟩ | hA
      · right; left
        refine ⟨?_, hB⟩
        rw [setPhase_ne _ _ _ _ hppu]
        exact hA
      · left
        rw [setPhase_ne _ _ _ _ hppu]
        exact hA
  · simp only []
    by_cases hppu : p = strToUpper ph
    · rw [hppu]
      left
      exact demoteOtherActives_pu s.phases (strToUpper ph)
    · rcases demote_cases s.phases (strToUpper ph) p with ⟨hA, hB, _⟩ | hA
      · right; left
        exact ⟨hA, hB⟩
      · left
        exact hA
  · left
    rfl

theorem markPhaseCompleted_phases (s : RunState) (ph p : String) :
    ((markPhaseCompleted s ph).phases p = s.phases p)
    ∨ ((markPhaseCompleted s ph).phases p = some PhaseStatus.completed
        ∧ s.phases p = some PhaseStatus.active) := by
  simp only [markPhaseCompleted]
  split_ifs with h1
  · by_cases hppu : p = strToUpper ph
    · rw [hppu]
      right
      exact ⟨setPhase_eq _ _ _, beq_iff_eq.mp ((Bool.and_eq_true _ _).mp h1).2⟩
    · left
      exact setPhase_ne _ _ _ _ hppu
  · left
    rfl

theorem completeActive_phases_cases (m : PhaseMap) (st : PhaseStatus) (p : String) :
    (completeActivePhases m st p = some st ∧ m p = some PhaseStatus.active)
    ∨ completeActivePhases m st p = m p := by
  simp only [completeActivePhases]
  split_ifs with h1
  · exact Or.inl ⟨rfl, beq_iff_eq.mp ((Bool.and_eq_true _ _).mp h1).2⟩
  · exact Or.inr rfl

theorem setPhase_phases_cases (m : PhaseMap) (k : String) (v : PhaseStatus) (p : String) :
    (setPhase m k v p = some v ∧ p = k) ∨ setPhase m k v p = m p := by
  by_cases hpk : p = k
  · rw [hpk]
    exact Or.inl ⟨setPhase_eq _ _ _, rfl⟩
  · exact Or.inr (setPhase_ne _ _ _ _ hpk)

theorem handleLogEntry_phases_eq (s : RunState) (e : LogEntry) :
    (handleLogEntry s e).phases = completeActivePhases s.phases PhaseStatus.completed
    ∨ (handleLogEntry s e).phases = setPhase s.phases "FIX" PhaseStatus.skipped
    ∨ (handleLogEntry s e).phases = setPhase s.phases "PLAN" PhaseStatus.skipped
    ∨ (∃ ph, (handleLogEntry s e).phases
        = (updatePhaseStatus { s with logs := pushLogBounded s.logs e } ph).phases)
    ∨ (∃ ph, (handleLogEntry s e).phases
        = (markPhaseCompleted { s with logs := pushLogBounded s.logs e } ph).phases)
    ∨ (handleLogEntry s e).phases = s.phases := by
  simp only [handleLogEntry]
  split_ifs with h1 h2 h3 h4 h5
  · cases hm : extractPrUrl e.message.toList <;> simp [hm]
  · right; left; rfl
  · right; right; right; left
    exact ⟨strToUpper e.phase, rfl⟩
  · right; right; left; rfl
  · right; right; right; right; left
    exact ⟨strToUpper e.phase, rfl⟩
  · right; right; right; left
    exact ⟨strToUpper e.phase, rfl⟩
  · right; right; right; right; right; rfl

theorem updatePhaseStatus_total (s : RunState) (ph : String)
    (h : phasesTotal s.phases) : phasesTotal (updatePhaseStatus s ph).phases := by
  intro p hp
  rcases updatePhaseStatus_phases s ph p with h1 | ⟨h1, _⟩ | ⟨h1, _⟩ <;> rw [h1]
  · exact h p hp
  · rfl
  · rfl

theorem markPhaseCompleted_total (s : RunState) (ph : String)
    (h : phasesTotal s.phases) : phasesTotal (markPhaseCompleted s ph).phases := by
  intro p hp
  rcases markPhaseCompleted_phases s ph p with h1 | ⟨h1, _⟩ <;> rw [h1]
  · exact h p hp
  · rfl

theorem handleLogEntry_total (s : RunState) (e : LogEntry)
    (h : phasesTotal s.phases) : phasesTotal (handleLogEntry s e).phases := by
  rcases handleLogEntry_phases_eq s e with h1 | h1 | h1 | ⟨ph, h1⟩ | ⟨ph, h1⟩ | h1 <;> rw [h1]
  · intro p hp
    rcases completeActive_phases_cases s.phases PhaseStatus.completed p with ⟨h2, _⟩ | h2 <;>
      rw [h2]
    · rfl
    · exact h p hp
  · intro p hp
    rcases setPhase_phases_cases s.phases "FIX" PhaseStatus.skipped p with ⟨h2, _⟩ | h2 <;>
      rw [h2]
    · rfl
    · exact h p hp
  · intro p hp
    rcases setPhase_phases_cases s.phases "PLAN" PhaseStatus.skipped p with ⟨h2, _⟩ | h2 <;>
      rw [h2]
    · rfl
    · exact h p hp
  · exact updatePhaseStatus_total _ ph h
  · exact markPhaseCompleted_total _ ph h
  · exact h

theorem updatePhaseStatus_skip (s : RunState) (ph p : String)
    (h : s.phases p = some PhaseStatus.skipped) :
    (updatePhaseStatus s ph).phases p = some PhaseStatus.skipped := by
  rcases updatePhaseStatus_phases s ph p with h1 | ⟨h1, h2⟩ | ⟨h1, h2⟩
  · rw [h1, h]
  · rw [h] at h2
    exact absurd h2 (by simp)
  · exact absurd h h2

theorem markPhaseCompleted_skip (s : RunState) (ph p : String)
    (h : s.phases p = some PhaseStatus.skipped) :
    (markPhaseCompleted s ph).phases p = some PhaseStatus.skipped := by
  rcases markPhaseCompleted_phases s ph p with h1 | ⟨h1, h2⟩
  · rw [h1, h]
  · rw [h] at h2
    exact absurd h2 (by simp)

theorem completeActive_skip (m : PhaseMap) (st : PhaseStatus) (p : String)
    (h : m p = some PhaseStatus.skipped) :
    completeActivePhases m st p = some PhaseStatus.skipped := by
  rcases completeActive_phases_cases m st p with ⟨_, h2⟩ | h1
  · rw [h] at h2
    exact absurd h2 (by simp)
  · rw [h1, h]

theorem handleLogEntry_skip (s : RunState) (e : LogEntry) (p : String)
    (h : s.phases p = some PhaseStatus.skipped) :
    (handleLogEntry s e).phases p = some PhaseStatus.skipped := by
  rcases handleLogEntry_phases_eq s e with h1 | h1 | h1 | ⟨ph, h1⟩ | ⟨ph, h1⟩ | h1 <;> rw [h1]
  · exact completeActive_skip _ _ _ h
  · rcases setPhase_phases_cases s.phases "FIX" PhaseStatus.skipped p with ⟨h2, _⟩ | h2 <;>
      rw [h2]
    · exact h
  · rcases setPhase_phases_cases s.phases "PLAN" PhaseStatus.skipped p with ⟨h2, _⟩ | h2 <;>
      rw [h2]
    · exact h
  · exact updatePhaseStatus_skip _ ph p h
  · exact markPhaseCompleted_skip _ ph p h
  · exact h

theorem finalize_phases_eq (now : Nat) (s : RunState) :
    (finalizeBackgroundRun now s).phases = s.phases
    ∨ (finalizeBackgroundRun now s).phases = completeActivePhases s.phases PhaseStatus.completed
    ∨ (finalizeBackgroundRun now s).phases = completeActivePhases s.phases PhaseStatus.failed := by
  simp only [finalizeBackgroundRun]
  split_ifs <;> simp

theorem finalize_skip (s : RunState) (now : Nat) (p : String)
    (h : s.phases p = some PhaseStatus.skipped) :
    (finalizeBackgroundRun now s).phases p = some PhaseStatus.skipped := by
  rcases finalize_phases_eq now s with h1 | h1 | h1 <;> rw [h1]
  · exact h
  · exact completeActive_skip _ _ _ h
  · exact completeActive_skip _ _ _ h

theorem activeCount_le_of_imp (m1 m2 : PhaseMap)
    (h : ∀ p ∈ PIPELINE_PHASES, (m1 p == some PhaseStatus.active) = true →
      (m2 p == some PhaseStatus.active) = true) :
    activeCount m1 ≤ activeCount m2 :=
  countP_le_of_imp _ _ _ h

theorem completeActive_atMostOne (m : PhaseMap) (st : PhaseStatus)
    (hst : st ≠ PhaseStatus.active) (h : atMostOneActive m) :
    atMostOneActive (completeActivePhases m st) := by
  refine le_trans (activeCount_le_of_imp _ m ?_) h
  intro p _ hp
  rcases completeActive_phases_cases m st p with ⟨h2, _⟩ | h2
  · rw [h2] at hp
    exact absurd (beq_iff_eq.mp hp) (by simp [hst] : ¬ some st = some PhaseStatus.active)
  · rw [h2] at hp
    exact hp

theorem setPhase_atMostOne (m : PhaseMap) (k : String) (v : PhaseStatus)
    (hv : v ≠ PhaseStatus.active) (h : atMostOneActive m) :
    atMostOneActive (setPhase m k v) := by
  refine le_trans (activeCount_le_of_imp _ m ?_) h
  intro p _ hp
  rcases setPhase_phases_cases m k v p with ⟨h2, _⟩ | h2
  · rw [h2] at hp
    exact absurd (beq_iff_eq.mp hp) (by simp [hv] : ¬ some v = some PhaseStatus.active)
  · rw [h2] at hp
    exact hp

theorem markPhaseCompleted_atMostOne (s : RunState) (ph : String)
    (h : atMostOneActive s.phases) : atMostOneActive (markPhaseCompleted s ph).phases := by
  refine le_trans (activeCount_le_of_imp _ s.phases ?_) h
  intro p _ hp
  rcases markPhaseCompleted_phases s ph p with h2 | ⟨h2, _⟩
  · rw [h2] at hp
    exact hp
  · rw [h2] at hp
    exact absurd (beq_iff_eq.mp hp) (by simp)

theorem updatePhaseStatus_atMostOne (s : RunState) (ph : String)
    (h : atMostOneActive s.phases) : atMostOneActive (updatePhaseStatus s ph).phases := by
  simp only [updatePhaseStatus]
  split_ifs with h1 h2
  · show atMostOneActive
      (setPhase (demoteOtherActives s.phases (strToUpper ph)) (strToUpper ph) PhaseStatus.active)
    apply countP_le_one_of_unique _ (strToUpper ph)
    intro p hp hpred
    by_contra hppu
    rw [setPhase_ne _ _ _ _ hppu] at hpred
    rw [demote_not_active s.phases (strToUpper ph) p hp hppu] at hpred
    exact absurd hpred (by simp)
  · show atMostOneActive (demoteOtherActives s.phases (strToUpper ph))
    apply countP_le_one_of_unique _ (strToUpper ph)
    intro p hp hpred
    by_contra hppu
    rw [demote_not_active s.phases (strToUpper ph) p hp hppu] at hpred
    exact absurd hpred (by simp)
  · exact h

theorem handleLogEntry_atMostOne (s : RunState) (e : LogEntry)
    (h : atMostOneActive s.phases) : atMostOneActive (handleLogEntry s e).phases := by
  rcases handleLogEntry_phases_eq s e with h1 | h1 | h1 | ⟨ph, h1⟩ | ⟨ph, h1⟩ | h1 <;>
    rw [atMostOneActive, activeCount, ← activeCount, ← atMostOneActive, h1]
  · exact completeActive_atMostOne _ _ (by simp) h
  · exact setPhase_atMostOne _ _ _ (by simp) h
  · exact setPhase_atMostOne _ _ _ (by simp) h
  · exact updatePhaseStatus_atMostOne _ ph h
  · exact markPhaseCompleted_atMostOne _ ph h
  · exact h

theorem finalize_total (s : RunState) (now : Nat)
    (h : phasesTotal s.phases) : phasesTotal (finalizeBackgroundRun now s).phases := by
  rcases finalize_phases_eq now s with h1 | h1 | h1 <;> rw [h1]
  · exact h
  all_goals
    intro p hp
    rcases completeActive_phases_cases s.phases _ p with ⟨h2, _⟩ | h2 <;> rw [h2] <;>
      first | rfl | exact h p hp

theorem finalize_atMostOne (s : RunState) (now : Nat)
    (h : atMostOneActive s.phases) : atMostOneActive (finalizeBackgroundRun now s).phases := by
  rcases finalize_phases_eq now s with h1 | h1 | h1 <;>
    rw [atMostOneActive, activeCount, ← activeCount, ← atMostOneActive, h1]
  · exact h
  · exact completeActive_atMostOne _ _ (by simp) h
  · exact completeActive_atMostOne _ _ (by simp) h

theorem initial_phases_inv (skipPlan skipPr : Bool) :
    phasesTotal (createInitialPhases skipPlan skipPr)
    ∧ atMostOneActive (createInitialPhases skipPlan skipPr) := by
  cases skipPlan <;> cases skipPr <;> exact ⟨by decide, by decide⟩

theorem replay_inv (entries : List LogEntry) :
    ∀ (s : RunState), phasesTotal s.phases → atMostOneActive s.phases →
      phasesTotal (replayLog s entries).phases ∧ atMostOneActive (replayLog s entries).phases := by
  induction entries with
  | nil => exact fun s h1 h2 => ⟨h1, h2⟩
  | cons e t ih =>
      intro s h1 h2
      exact ih (handleLogEntry s e) (handleLogEntry_total s e h1) (handleLogEntry_atMostOne s e h2)

/-- C1.  Phase-map invariants of the Run model: starting from the state
`startRun` creates and replaying any sequence of parsed log entries
through `handleLogEntry` (which drives `updatePhaseStatus` and
`markPhaseCompleted`), and optionally finalizing, the phase map always
assigns a status to each of the 9 fixed phases and at most one phase is
`active`; moreover each individual step — `handleLogEntry`,
`updatePhaseStatus`, `markPhaseCompleted` and `finalizeBackgroundRun` —
never changes a phase already `skipped`. -/
theorem phase_map_invariants :
    (∀ (id : String) (skipPlan skipPr bg am : Bool) (t0 : Nat) (entries : List LogEntry),
      (phasesTotal (replayLog (startRunInitialState id skipPlan skipPr bg am t0) entries).phases
        ∧ atMostOneActive (replayLog (startRunInitialState id skipPlan skipPr bg am t0) entries).phases)
      ∧ (∀ now : Nat,
          phasesTotal (finalizeBackgroundRun now
            (replayLog (startRunInitialState id skipPlan skipPr bg am t0) entries)).phases
          ∧ atMostOneActive (finalizeBackgroundRun now
            (replayLog (startRunInitialState id skipPlan skipPr bg am t0) entries)).phases))
    ∧ (∀ (s : RunState) (e : LogEntry) (p : String),
        s.phases p = some PhaseStatus.skipped →
          (handleLogEntry s e).phases p = some PhaseStatus.skipped)
    ∧ (∀ (s : RunState) (ph p : String),
        s.phases p = some PhaseStatus.skipped →
          (updatePhaseStatus s ph).phases p = some PhaseStatus.skipped
          ∧ (markPhaseCompleted s ph).phases p = some PhaseStatus.skipped)
    ∧ (∀ (s : RunState) (now : Nat) (p : String),
        s.phases p = some PhaseStatus.skipped →
          (finalizeBackgroundRun now s).phases p = some PhaseStatus.skipped) := by
  refine ⟨?_, handleLogEntry_skip, ?_, ?_⟩
  · intro id skipPlan skipPr bg am t0 entries
    have h0 := initial_phases_inv skipPlan skipPr
    have hr := replay_inv entries (startRunInitialState id skipPlan skipPr bg am t0) h0.1 h0.2
    exact ⟨hr, fun now => ⟨finalize_total _ now hr.1, finalize_atMostOne _ now hr.2⟩⟩
  · intro s ph p h
    exact ⟨updatePhaseStatus_skip s ph p h, markPhaseCompleted_skip s ph p h⟩
  · intro s now p h
    exact finalize_skip s now p h

/-- Witness for `phase_map_invariants` at concrete inputs: a run with the
PLAN phase pre-skipped, replaying a CLONE line, a CLONE completion and a
SETUP line; the invariants hold, and a skipped PLAN stays skipped through
`handleLogEntry`, `updatePhaseStatus`, `markPhaseCompleted` and
`finalizeBackgroundRun`. -/
theorem phase_map_invariants_witness :
    (phasesTotal (replayLog (startRunInitialState "w" true false false false 0)
        [{ timestamp := "t1", phase := "CLONE", message := "Cloning", raw := "r1" },
         { timestamp := "t2", phase := "CLONE", message := "Completed in 3s", raw := "r2" },
         { timestamp := "t3", phase := "SETUP", message := "Running pnpm i", raw := "r3" }]).phases
      ∧ atMostOneActive (replayLog (startRunInitialState "w" true false false false 0)
        [{ timestamp := "t1", phase := "CLONE", message := "Cloning", raw := "r1" },
         { timestamp := "t2", phase := "CLONE", message := "Completed in 3s", raw := "r2" },
         { timestamp := "t3", phase := "SETUP", message := "Running pnpm i", raw := "r3" }]).phases)
    ∧ (startRunInitialState "w" true false false false 0).phases "PLAN" = some PhaseStatus.skipped
    ∧ (handleLogEntry (startRunInitialState "w" true false false false 0)
        { timestamp := "t4", phase := "PLAN", message := "Starting planning", raw := "r4" }).phases "PLAN"
        = some PhaseStatus.skipped
    ∧ (updatePhaseStatus (startRunInitialState "w" true false false false 0) "PLAN").phases "PLAN"
        = some PhaseStatus.skipped
    ∧ (markPhaseCompleted (startRunInitialState "w" true false false false 0) "PLAN").phases "PLAN"
        = some PhaseStatus.skipped
    ∧ (finalizeBackgroundRun 9 (startRunInitialState "w" true false false false 0)).phases "PLAN"
        = some PhaseStatus.skipped := by
  have hmain := phase_map_invariants
  refine ⟨(hmain.1 "w" true false false false 0 _).1, by decide, ?_, ?_, ?_, ?_⟩
  · exact hmain.2.1 _ _ "PLAN" (by decide)
  · exact (hmain.2.2.1 _ "PLAN" "PLAN" (by decide)).1
  · exact (hmain.2.2.1 _ "PLAN" "PLAN" (by decide)).2
  · exact hmain.2.2.2 _ 9 "PLAN" (by decide)
